import Mathlib

/-!
Shallow embedding of the `cmap` character-to-glyph resolver
(`src/pathfinder-classic/src/tables/cmap.rs`).

Conventions:
* bytes are `Nat`s interpreted mod 256; multi-byte reads are big-endian;
* machine integers are `Nat` with explicit `% 2^16` / `% 2^32` at every
  operation where Rust release-mode wrapping can occur;
* `i16` values (the Format 4 `id_delta`) are carried as `Int`;
* the per-range `while` loops of the two resolvers can genuinely fail to
  terminate (the cursor arithmetic wraps), so they take a fuel argument and
  return `Option (Except ...)`: `none` means the fuel ran out, `some r`
  means the loop finished with result `r`.

Each emitted `MappedGlyphRange` is paired with the inclusive codepoint range
it was emitted for (the "span"); the mapping the Rust code returns is the
list of first components.
-/

namespace Cmap

/-- Modelled from the spec: the error kinds of `error.rs` (not under `src/`):
`UnexpectedEndOfData`, `UnsupportedCmapVersion`, `UnsupportedCmapEncoding`,
`UnsupportedCmapFormat`. -/
inductive FontError where
  | eof
  | unsupportedCmapVersion
  | unsupportedCmapEncoding
  | unsupportedCmapFormat
  deriving DecidableEq, Repr

instance {ε α : Type} [DecidableEq ε] [DecidableEq α] : DecidableEq (Except ε α)
  | .ok a, .ok b => if h : a = b then .isTrue (by rw [h]) else .isFalse (by simp [h])
  | .error a, .error b => if h : a = b then .isTrue (by rw [h]) else .isFalse (by simp [h])
  | .ok _, .error _ => .isFalse (by simp)
  | .error _, .ok _ => .isFalse (by simp)

/-- Modelled from the spec: `CodepointRange {start, end: u32}` (inclusive),
from `charmap.rs` (not under `src/`). -/
structure CodepointRange where
  start : Nat
  «end» : Nat
  deriving DecidableEq, Repr

/-- Modelled from the spec: `GlyphRange {start, end: u16}` (inclusive). -/
structure GlyphRange where
  start : Nat
  «end» : Nat
  deriving DecidableEq, Repr

/-- Modelled from the spec: `MappedGlyphRange {codepoint_start: u32, glyphs}`. -/
structure MappedGlyphRange where
  codepoint_start : Nat
  glyphs : GlyphRange
  deriving DecidableEq, Repr

/-- `read_u16::<BigEndian>`: consume two bytes, big-endian. -/
def readU16 : List Nat → Except FontError (Nat × List Nat)
  | b0 :: b1 :: rest => .ok ((b0 % 256) * 256 + b1 % 256, rest)
  | _ => .error .eof

/-- `read_u32::<BigEndian>`: consume four bytes, big-endian. -/
def readU32 : List Nat → Except FontError (Nat × List Nat)
  | b0 :: b1 :: b2 :: b3 :: rest =>
      .ok ((b0 % 256) * 16777216 + (b1 % 256) * 65536 + (b2 % 256) * 256 + b3 % 256, rest)
  | _ => .error .eof

/-- Modelled from the spec: `util::Jump::jump` (not under `src/`) — advance the
cursor by `n` bytes, failing with the end-of-data error when fewer than `n`
bytes remain (`n` equal to the remaining length is legal). -/
def jump (n : Nat) (bytes : List Nat) : Except FontError (List Nat) :=
  if n ≤ bytes.length then .ok (bytes.drop n) else .error .eof

/-- A cloned cursor that jumps to byte offset `off` and reads one u16 there
(the "parallel array pointer" access pattern of the Format 4 resolver). -/
def readU16At (bytes : List Nat) (off : Nat) : Except FontError Nat :=
  match jump off bytes with
  | .error e => .error e
  | .ok b =>
    match readU16 b with
    | .error e => .error e
    | .ok (v, _) => .ok v

/-- Reinterpret a u16 bit pattern as an `i16` (two's complement). -/
def asI16 (v : Nat) : Int :=
  if v % 65536 < 32768 then ((v % 65536 : Nat) : Int) else ((v % 65536 : Nat) : Int) - 65536

/-- `read_i16::<BigEndian>` at byte offset `off`. -/
def readI16At (bytes : List Nat) (off : Nat) : Except FontError Int :=
  match readU16At bytes off with
  | .error e => .error e
  | .ok v => .ok (asI16 v)

/-- `(a as i16).wrapping_add(d) as u16`: the wrapped sum reinterpreted as u16. -/
def wrapAddI16 (a : Nat) (d : Int) : Nat := ((asI16 a + d).emod 65536).toNat

/-- The resolvers return each pushed `MappedGlyphRange` together with the
codepoint span it was emitted for. -/
abbrev SpannedEntry := MappedGlyphRange × CodepointRange

/-- Result of a fueled resolver loop: `none` = fuel exhausted (the Rust loop
would still be running), `some` = the loop finished. -/
abbrev LookupResult := Option (Except FontError (List SpannedEntry))

/-- `glyph_mapping.push(entry)` followed by the rest of the loop: the entry is
prepended when the rest finishes successfully; errors abort the whole query. -/
def pushCons (p : SpannedEntry) (r : LookupResult) : LookupResult :=
  match r with
  | none => none
  | some (.error e) => some (.error e)
  | some (.ok l) => some (.ok (p :: l))

/-- One push inside the Format 4 indirect inner loop: prepended to the rest of
that loop when it finishes, while a later read error aborts the whole query. -/
def consEntry (p : SpannedEntry) : Except FontError (List SpannedEntry) →
    Except FontError (List SpannedEntry)
  | .error e => .error e
  | .ok l => .ok (p :: l)

/-- A batch of pushes (the Format 4 indirect inner loop) followed by the rest
of the loop. -/
def pushAll (r1 : Except FontError (List SpannedEntry)) (r2 : LookupResult) : LookupResult :=
  match r1 with
  | .error e => some (.error e)
  | .ok l1 =>
    match r2 with
    | none => none
    | some (.error e) => some (.error e)
    | some (.ok l2) => some (.ok (l1 ++ l2))

/-- The Format 4 parallel-array cursors (suffixes of the subtable bytes) and
the segment count, as set up by lines 104-126 of `cmap.rs`. -/
structure Format4Arrays where
  seg_count : Nat
  end_codes : List Nat
  start_codes : List Nat
  id_deltas : List Nat
  id_range_offsets : List Nat
  deriving Repr

/-- Header parsing and parallel-array pointer setup of
`glyph_mapping_for_codepoint_ranges_segment_mapping_format` (lines 104-126):
six u16 header reads, then jumps of `(seg_count+1)*2` (skipping the reserved
pad after `end_code`) and `seg_count*2` bytes. The final jump locates the
`glyph_id_array`; its cursor is unused afterwards but the jump can fail. -/
def f4Parse (body : List Nat) : Except FontError Format4Arrays :=
  match readU16 body with
  | .error e => .error e
  | .ok (_length, b1) =>
    match readU16 b1 with
    | .error e => .error e
    | .ok (_language, b2) =>
      match readU16 b2 with
      | .error e => .error e
      | .ok (seg_count_x2, b3) =>
        let seg_count := seg_count_x2 / 2
        match readU16 b3 with
        | .error e => .error e
        | .ok (_search_range, b4) =>
          match readU16 b4 with
          | .error e => .error e
          | .ok (_entry_selector, b5) =>
            match readU16 b5 with
            | .error e => .error e
            | .ok (_range_shift, end_codes) =>
              match jump ((seg_count + 1) * 2) end_codes with
              | .error e => .error e
              | .ok start_codes =>
                match jump (seg_count * 2) start_codes with
                | .error e => .error e
                | .ok id_deltas =>
                  match jump (seg_count * 2) id_deltas with
                  | .error e => .error e
                  | .ok id_range_offsets =>
                    match jump (seg_count * 2) id_range_offsets with
                    | .error e => .error e
                    | .ok _glyph_ids =>
                      .ok ⟨seg_count, end_codes, start_codes, id_deltas, id_range_offsets⟩

/-- The Format 4 binary search (lines 149-172).  At each probe it reads
`end_code[mid]` and possibly `start_code[mid]`.  `high - low` shrinks every
iteration, so fuel `seg_count + 1` can never run out; exhaustion conservatively
answers "not found". -/
def findSegment (end_codes start_codes : List Nat) (cp : Nat) :
    Nat → Nat → Nat → Except FontError (Option Nat)
  | 0, _, _ => .ok none
  | fuel + 1, low, high =>
    if low < high then
      let mid := (low + high) / 2
      match readU16At end_codes (mid * 2) with
      | .error e => .error e
      | .ok end_code =>
        if cp > end_code then findSegment end_codes start_codes cp fuel (mid + 1) high
        else
          match readU16At start_codes (mid * 2) with
          | .error e => .error e
          | .ok start_code =>
            if cp < start_code then findSegment end_codes start_codes cp fuel low mid
            else .ok (some mid)
    else .ok none

/-- The Format 4 indirect inner loop (lines 227-250): starting at
`code_offset` and running for `n` iterations, read the glyph id at byte offset
`segment_index*2 + code_offset*2 + id_range_offset` inside the
`id_range_offset` region; a raw id of 0 is pushed as the missing glyph,
otherwise `id_delta` is wrapping-added.  Each push covers the single codepoint
`start_code + code_offset`. -/
def f4IndirectLookups (id_range_offsets : List Nat) (segment_index id_range_offset : Nat)
    (id_delta : Int) (start_code : Nat) :
    Nat → Nat → Except FontError (List SpannedEntry)
  | _, 0 => .ok []
  | code_offset, n + 1 =>
    match readU16At id_range_offsets (segment_index * 2 + code_offset * 2 + id_range_offset) with
    | .error e => .error e
    | .ok glyph_id =>
      let entry : MappedGlyphRange :=
        if glyph_id = 0 then ⟨start_code + code_offset, ⟨0, 0⟩⟩
        else ⟨start_code + code_offset,
              ⟨wrapAddI16 glyph_id id_delta, wrapAddI16 glyph_id id_delta⟩⟩
      consEntry (entry, ⟨start_code + code_offset, start_code + code_offset⟩)
        (f4IndirectLookups id_range_offsets segment_index id_range_offset id_delta
          start_code (code_offset + 1) n)

/-- The Format 4 per-range `while codepoint_range.end >= codepoint_range.start`
loop (lines 132-251), with `e` the (fixed) range end and the first argument the
current `codepoint_range.start`.  All u16/u32 arithmetic wraps as in release
Rust: the cursor update `(end_codepoint_range + 1) as u32` is a u16 addition
(line 205), the `+= 1` updates are u32 additions, and the code-offset
subtractions are u16 subtractions. -/
def f4Lookups (t : Format4Arrays) (e : Nat) : Nat → Nat → LookupResult
  | _, 0 => none
  | start, fuel + 1 =>
    if e < start then some (.ok [])
    else if start > 65535 then
      pushCons (⟨start, ⟨0, 0⟩⟩, ⟨start, start⟩)
        (f4Lookups t e ((start + 1) % 4294967296) fuel)
    else
      let start_codepoint_range := start % 65536
      let end_codepoint_range := e % 65536
      match findSegment t.end_codes t.start_codes start_codepoint_range
              (t.seg_count + 1) 0 t.seg_count with
      | .error err => some (.error err)
      | .ok none =>
        pushCons (⟨start, ⟨0, 0⟩⟩, ⟨start, start⟩)
          (f4Lookups t e ((start + 1) % 4294967296) fuel)
      | .ok (some segment_index) =>
        match readU16At t.start_codes (segment_index * 2) with
        | .error err => some (.error err)
        | .ok start_code =>
          match readU16At t.end_codes (segment_index * 2) with
          | .error err => some (.error err)
          | .ok end_code =>
            match readU16At t.id_range_offsets (segment_index * 2) with
            | .error err => some (.error err)
            | .ok id_range_offset =>
              match readI16At t.id_deltas (segment_index * 2) with
              | .error err => some (.error err)
              | .ok id_delta =>
                let clipped := min end_codepoint_range end_code
                let next := (clipped + 1) % 65536
                let start_code_offset := (start_codepoint_range + 65536 - start_code) % 65536
                let end_code_offset := (clipped + 65536 - start_code) % 65536
                if id_range_offset = 0 then
                  pushCons
                    (⟨start_codepoint_range,
                      ⟨wrapAddI16 start_codepoint_range id_delta, wrapAddI16 clipped id_delta⟩⟩,
                     ⟨start_codepoint_range, clipped⟩)
                    (f4Lookups t e next fuel)
                else
                  pushAll
                    (f4IndirectLookups t.id_range_offsets segment_index id_range_offset id_delta
                      start_code start_code_offset
                      ((end_code_offset + 1) % 65536 - start_code_offset))
                    (f4Lookups t e next fuel)

/-- Iterate `f4Lookups` over the input ranges, concatenating the pushes. -/
def f4LookupsAll (t : Format4Arrays) : List CodepointRange → Nat → LookupResult
  | [], _ => some (.ok [])
  | r :: rs, fuel =>
    match f4Lookups t r.«end» r.start fuel with
    | none => none
    | some (.error e) => some (.error e)
    | some (.ok l) =>
      match f4LookupsAll t rs fuel with
      | none => none
      | some (.error e) => some (.error e)
      | some (.ok l2) => some (.ok (l ++ l2))

/-- `glyph_mapping_for_codepoint_ranges_segment_mapping_format` (lines 99-255),
handed the subtable bytes just after the format word. -/
def glyph_mapping_for_codepoint_ranges_segment_mapping_format
    (body : List Nat) (codepoint_ranges : List CodepointRange) (fuel : Nat) : LookupResult :=
  match f4Parse body with
  | .error e => some (.error e)
  | .ok t => f4LookupsAll t codepoint_ranges fuel

/-- A Format 12 group (`struct Segment`, lines 331-336). -/
structure Segment where
  start_char_code : Nat
  end_char_code : Nat
  start_glyph_id : Nat
  deriving DecidableEq, Repr

/-- Read the `mid`-th Format 12 group: jump to `mid * size_of::<[u32; 3]>()`
and read three big-endian u32s (lines 277-287). -/
def readSegment (groups : List Nat) (mid : Nat) : Except FontError Segment :=
  match jump (mid * 12) groups with
  | .error e => .error e
  | .ok b =>
    match readU32 b with
    | .error e => .error e
    | .ok (start_char_code, b1) =>
      match readU32 b1 with
      | .error e => .error e
      | .ok (end_char_code, b2) =>
        match readU32 b2 with
        | .error e => .error e
        | .ok (start_glyph_id, _) => .ok ⟨start_char_code, end_char_code, start_glyph_id⟩

/-- The Format 12 binary search (lines 272-297).  `low`, `high` and `mid` are
u32s, so `(low + high) / 2` wraps mod 2^32; with a wrapped `mid` the interval
no longer shrinks and the search loop itself can cycle, hence the fuel
(`none` = the search was still running). -/
def findGroup (groups : List Nat) (cp : Nat) :
    Nat → Nat → Nat → Option (Except FontError (Option Segment))
  | 0, _, _ => none
  | fuel + 1, low, high =>
    if low < high then
      let mid := (low + high) % 4294967296 / 2
      match readSegment groups mid with
      | .error e => some (.error e)
      | .ok segment =>
        if cp < segment.start_char_code then findGroup groups cp fuel low mid
        else if cp > segment.end_char_code then findGroup groups cp fuel (mid + 1) high
        else some (.ok (some segment))
    else some (.ok none)

/-- The Format 12 per-range loop (lines 270-324): binary-search the group for
the current `start`; if absent push a missing-glyph singleton and add 1 (u32);
if found clip the end to the group, push one range whose glyph ids are
computed in u32 arithmetic and truncated to u16, and move `start` past the
clipped end (u32 addition). -/
def f12Lookups (groups : List Nat) (num_groups : Nat) (e : Nat) : Nat → Nat → LookupResult
  | _, 0 => none
  | start, fuel + 1 =>
    if e < start then some (.ok [])
    else
      match findGroup groups start (fuel + 1) 0 num_groups with
      | none => none
      | some (.error err) => some (.error err)
      | some (.ok none) =>
        pushCons (⟨start, ⟨0, 0⟩⟩, ⟨start, start⟩)
          (f12Lookups groups num_groups e ((start + 1) % 4294967296) fuel)
      | some (.ok (some segment)) =>
        let clipped := min e segment.end_char_code
        let gs := ((segment.start_glyph_id + start) % 4294967296 + 4294967296 -
                   segment.start_char_code) % 4294967296 % 65536
        let ge := ((segment.start_glyph_id + clipped) % 4294967296 + 4294967296 -
                   segment.start_char_code) % 4294967296 % 65536
        pushCons (⟨start, ⟨gs, ge⟩⟩, ⟨start, clipped⟩)
          (f12Lookups groups num_groups e ((clipped + 1) % 4294967296) fuel)

/-- Iterate `f12Lookups` over the input ranges, concatenating the pushes. -/
def f12LookupsAll (groups : List Nat) (num_groups : Nat) :
    List CodepointRange → Nat → LookupResult
  | [], _ => some (.ok [])
  | r :: rs, fuel =>
    match f12Lookups groups num_groups r.«end» r.start fuel with
    | none => none
    | some (.error e) => some (.error e)
    | some (.ok l) =>
      match f12LookupsAll groups num_groups rs fuel with
      | none => none
      | some (.error e) => some (.error e)
      | some (.ok l2) => some (.ok (l ++ l2))

/-- Format 12 header parsing (lines 261-264): `reserved: u16`, `length: u32`,
`language: u32`, `num_groups: u32`; returns the group count and the cursor at
the first group. -/
def f12Parse (body : List Nat) : Except FontError (Nat × List Nat) :=
  match readU16 body with
  | .error e => .error e
  | .ok (_reserved, b1) =>
    match readU32 b1 with
    | .error e => .error e
    | .ok (_length, b2) =>
      match readU32 b2 with
      | .error e => .error e
      | .ok (_language, b3) =>
        match readU32 b3 with
        | .error e => .error e
        | .ok (num_groups, groups) => .ok (num_groups, groups)

/-- `glyph_mapping_for_codepoint_ranges_segmented_coverage` (lines 257-328). -/
def glyph_mapping_for_codepoint_ranges_segmented_coverage
    (body : List Nat) (codepoint_ranges : List CodepointRange) (fuel : Nat) : LookupResult :=
  match f12Parse body with
  | .error e => some (.error e)
  | .ok (num_groups, groups) => f12LookupsAll groups num_groups codepoint_ranges fuel

/-- The encoding records accepted by the selector (lines 66-69):
`(PLATFORM_ID_UNICODE, _)`, `(PLATFORM_ID_MICROSOFT, UNICODE_BMP)`,
`(PLATFORM_ID_MICROSOFT, UNICODE_UCS4)`. -/
def acceptedEncoding (platform_id encoding_id : Nat) : Bool :=
  platform_id == 0 || (platform_id == 3 && encoding_id == 1) ||
    (platform_id == 3 && encoding_id == 10)

/-- The linear scan over the `num_tables` encoding records (lines 61-78): read
`platform_id: u16`, `encoding_id: u16`, `offset: u32` per record and stop at
the first accepted pair, returning its offset. -/
def findEncodingRecord : List Nat → Nat → Except FontError (Option Nat)
  | _, 0 => .ok none
  | bytes, n + 1 =>
    match readU16 bytes with
    | .error e => .error e
    | .ok (platform_id, b1) =>
      match readU16 b1 with
      | .error e => .error e
      | .ok (encoding_id, b2) =>
        match readU32 b2 with
        | .error e => .error e
        | .ok (offset, b3) =>
          if acceptedEncoding platform_id encoding_id then .ok (some offset)
          else findEncodingRecord b3 n

/-- The subtable selector part of `glyph_mapping_for_codepoint_ranges`
(lines 48-85): version check, encoding-record scan, jump from the table start
to the matched offset, and the subtable format word. -/
def selectSubtable (table : List Nat) : Except FontError (Nat × List Nat) :=
  match readU16 table with
  | .error e => .error e
  | .ok (version, r1) =>
    if version ≠ 0 then .error .unsupportedCmapVersion
    else
      match readU16 r1 with
      | .error e => .error e
      | .ok (num_tables, r2) =>
        match findEncodingRecord r2 num_tables with
        | .error e => .error e
        | .ok none => .error .unsupportedCmapEncoding
        | .ok (some offset) =>
          match jump offset table with
          | .error e => .error e
          | .ok sub =>
            match readU16 sub with
            | .error e => .error e
            | .ok (format, body) => .ok (format, body)

/-- `glyph_mapping_for_codepoint_ranges` (lines 48-97) with each pushed entry
paired with the codepoint span it was emitted for. -/
def glyph_mapping_for_codepoint_ranges_with_spans
    (table : List Nat) (codepoint_ranges : List CodepointRange) (fuel : Nat) : LookupResult :=
  match selectSubtable table with
  | .error e => some (.error e)
  | .ok (format, body) =>
    if format = 4 then
      glyph_mapping_for_codepoint_ranges_segment_mapping_format body codepoint_ranges fuel
    else if format = 12 then
      glyph_mapping_for_codepoint_ranges_segmented_coverage body codepoint_ranges fuel
    else some (.error .unsupportedCmapFormat)

/-- `glyph_mapping_for_codepoint_ranges` (lines 48-97): the `GlyphMapping` the
Rust function returns is the sequence of pushed `MappedGlyphRange`s. -/
def glyph_mapping_for_codepoint_ranges
    (table : List Nat) (codepoint_ranges : List CodepointRange) (fuel : Nat) :
    Option (Except FontError (List MappedGlyphRange)) :=
  match glyph_mapping_for_codepoint_ranges_with_spans table codepoint_ranges fuel with
  | none => none
  | some (.error e) => some (.error e)
  | some (.ok l) => some (.ok (l.map Prod.fst))

/-- An emitted entry's span covers codepoint `c`. -/
def coversB (c : Nat) (p : SpannedEntry) : Bool :=
  decide (p.2.start ≤ c) && decide (c ≤ p.2.«end»)

/-! ## Basic facts about the searches and the loops -/

/-- When the Format 4 binary search answers `some i`, the probe at `i` read
`end_code[i]` and `start_code[i]` successfully and they bracket the query. -/
lemma findSegment_found (end_codes start_codes : List Nat) (cp : Nat) :
    ∀ fuel low high i, findSegment end_codes start_codes cp fuel low high = .ok (some i) →
      ∃ ec sc, readU16At end_codes (i * 2) = .ok ec ∧
        readU16At start_codes (i * 2) = .ok sc ∧ sc ≤ cp ∧ cp ≤ ec := by
  intro fuel
  induction fuel with
  | zero => intro low high i h; simp [findSegment] at h
  | succ n ih =>
    intro low high i h
    simp only [findSegment] at h
    split at h
    · split at h
      · exact absurd h (by simp)
      · rename_i ec hec
        split at h
        · exact ih _ _ _ h
        · split at h
          · exact absurd h (by simp)
          · rename_i sc hsc
            split at h
            · exact ih _ _ _ h
            · simp only [Except.ok.injEq, Option.some.injEq] at h
              subst h
              exact ⟨ec, sc, hec, hsc, by omega, by omega⟩
    · exact absurd h (by simp)

/-- When the Format 12 binary search answers a segment, that segment was read
from the group array and contains the query codepoint. -/
lemma findGroup_found (groups : List Nat) (cp : Nat) :
    ∀ fuel low high seg, findGroup groups cp fuel low high = some (.ok (some seg)) →
      (∃ mid, readSegment groups mid = .ok seg) ∧
        seg.start_char_code ≤ cp ∧ cp ≤ seg.end_char_code := by
  intro fuel
  induction fuel with
  | zero => intro low high seg h; simp [findGroup] at h
  | succ n ih =>
    intro low high seg h
    simp only [findGroup] at h
    split at h
    · split at h
      · exact absurd h (by simp)
      · rename_i s0 hrd
        split at h
        · exact ih _ _ _ h
        · split at h
          · exact ih _ _ _ h
          · simp only [Option.some.injEq, Except.ok.injEq] at h
            subst h
            exact ⟨⟨_, hrd⟩, by omega, by omega⟩
    · exact absurd h (by simp)

/-! ## The cursor-wrap bugs of the Format 4 loop (claims C2 and C3) -/

/-- One direct-mapped segment `[0, 0xFFFF]` (`id_delta = 0`,
`id_range_offset = 0`). -/
def tblFullSeg : Format4Arrays :=
  ⟨1, [0xFF, 0xFF], [0x00, 0x00], [0x00, 0x00], [0x00, 0x00]⟩

/-- On `tblFullSeg` every BMP codepoint finds segment 0. -/
lemma findSegment_tblFullSeg (s : Nat) (hs : s ≤ 65535) :
    findSegment tblFullSeg.end_codes tblFullSeg.start_codes s
      (tblFullSeg.seg_count + 1) 0 tblFullSeg.seg_count = .ok (some 0) := by
  show findSegment [0xFF, 0xFF] [0x00, 0x00] s 2 0 1 = .ok (some 0)
  have h1 : readU16At [0xFF, 0xFF] 0 = .ok 65535 := rfl
  have h2 : readU16At [0x00, 0x00] 0 = .ok 0 := rfl
  simp only [findSegment]
  norm_num [h1, h2]
  omega

/-- From any BMP start, the query `[s, 0xFFFF]` on `tblFullSeg` never finishes:
the clipped end is `0xFFFF`, the u16 increment of line 205 wraps the cursor to
`0`, and the loop restarts below every consumed codepoint. -/
lemma f4Lookups_tblFullSeg_none : ∀ fuel s, s ≤ 65535 →
    f4Lookups tblFullSeg 65535 s fuel = none := by
  intro fuel
  induction fuel with
  | zero => intro s _; simp [f4Lookups]
  | succ n ih =>
    intro s hs
    have hmod : s % 65536 = s := Nat.mod_eq_of_lt (by omega)
    have hfind := findSegment_tblFullSeg s hs
    have h1 : readU16At tblFullSeg.end_codes 0 = .ok 65535 := rfl
    have h2 : readU16At tblFullSeg.start_codes 0 = .ok 0 := rfl
    have h3 : readU16At tblFullSeg.id_range_offsets 0 = .ok 0 := rfl
    have h4 : readI16At tblFullSeg.id_deltas 0 = .ok 0 := rfl
    simp only [f4Lookups, hmod]
    rw [if_neg (by omega : ¬ (65535 : Nat) < s), if_neg (by omega : ¬ s > 65535)]
    rw [hfind]
    simp only [Nat.zero_mul, h1, h2, h3, h4]
    norm_num
    rw [ih 0 (by omega)]
    rfl

/-- Claim C2: the claim says the Format 4 loop advances `start` to
`cp_end_clipped + 1` as an unbounded value (so to `0x10000` when the clipped
end is `0xFFFF`) and hence terminates for every input range and segment data.
In the code the increment is a u16 addition (line 205), so for the segment
`[0, 0xFFFF]` and the query range `[0xFFFF, 0xFFFF]` the cursor wraps to `0`
and the per-range loop never terminates (no amount of fuel makes
`f4Lookups` finish). -/
theorem claim2_cursor_wrap_diverges :
    ∀ fuel, f4Lookups tblFullSeg 65535 65535 fuel = none := by
  intro fuel
  exact f4Lookups_tblFullSeg_none fuel 65535 (by omega)

/-- One direct-mapped segment `[0x41, 0x5A]` (`id_delta = 0`,
`id_range_offset = 0`). -/
def tblAZ : Format4Arrays :=
  ⟨1, [0x00, 0x5A], [0x00, 0x41], [0x00, 0x00], [0x00, 0x00]⟩

/-- On `tblAZ`, codepoints below `0x41` find no segment and `0x41` finds
segment 0. -/
lemma findSegment_tblAZ (s : Nat) (hs : s ≤ 0x41) :
    findSegment tblAZ.end_codes tblAZ.start_codes s
      (tblAZ.seg_count + 1) 0 tblAZ.seg_count =
      .ok (if s = 0x41 then some 0 else none) := by
  show findSegment [0x00, 0x5A] [0x00, 0x41] s 2 0 1 = _
  have h1 : readU16At [0x00, 0x5A] 0 = .ok 0x5A := rfl
  have h2 : readU16At [0x00, 0x41] 0 = .ok 0x41 := rfl
  by_cases h : s = 0x41
  · subst h
    rfl
  · rw [if_neg h]
    simp only [findSegment]
    norm_num [h1, h2]
    intro _ h6
    exact absurd (by omega : s = 0x41) h

/-- For the BMP-crossing query `[s, 0x10000]` (`1 ≤ s ≤ 0x41`) on `tblAZ` the
loop never finishes: the range end is truncated to the u16 `0`, so on reaching
`0x41` the covered sub-range is clipped to `[0x41, 0]` and the cursor is reset
to `1`. -/
lemma f4Lookups_tblAZ_none : ∀ fuel s, 1 ≤ s → s ≤ 0x41 →
    f4Lookups tblAZ 65536 s fuel = none := by
  intro fuel
  induction fuel with
  | zero => intro s _ _; simp [f4Lookups]
  | succ n ih =>
    intro s hs1 hs2
    have hmod : s % 65536 = s := Nat.mod_eq_of_lt (by omega)
    have hfind := findSegment_tblAZ s hs2
    simp only [f4Lookups, hmod]
    rw [if_neg (by omega : ¬ (65536 : Nat) < s), if_neg (by omega : ¬ s > 65535)]
    rw [hfind]
    by_cases h : s = 0x41
    · rw [if_pos h]
      have h1 : readU16At tblAZ.end_codes 0 = .ok 0x5A := rfl
      have h2 : readU16At tblAZ.start_codes 0 = .ok 0x41 := rfl
      have h3 : readU16At tblAZ.id_range_offsets 0 = .ok 0 := rfl
      have h4 : readI16At tblAZ.id_deltas 0 = .ok 0 := rfl
      simp only [Nat.zero_mul, h1, h2, h3, h4]
      norm_num
      rw [ih 1 (by omega) (by omega)]
      rfl
    · rw [if_neg h]
      have hm2 : (s + 1) % 4294967296 = s + 1 := by omega
      rw [hm2, ih (s + 1) (by omega) (by omega)]
      rfl

/-- Claim C3: the claim says the in-BMP query end is `min(end, 0xFFFF) as u16`,
so that `[0x41, 0x10000]` is processed with `cp_end_u16 = 0xFFFF`.  The code
instead truncates (`codepoint_range.end as u16`, line 146), giving
`cp_end_u16 = 0`; on the segment `[0x41, 0x5A]` the covered sub-range is
clipped to the reversed `[0x41, 0x00]`, the cursor is reset to `1`, and the
query `[0x41, 0x10000]` never finishes at any fuel. -/
theorem claim3_truncated_end_diverges :
    ∀ fuel, f4Lookups tblAZ 65536 0x41 fuel = none := by
  intro fuel
  exact f4Lookups_tblAZ_none fuel 0x41 (by omega) (by omega)

/-! ## One-step unfolding of the per-range loops -/

/-- Format 4, `start` above the BMP: one missing-glyph push and a u32 `+= 1`. -/
lemma f4Lookups_aboveBMP (t : Format4Arrays) (e s fuel : Nat) (hse : s ≤ e) (hs : 65535 < s) :
    f4Lookups t e s (fuel + 1) =
      pushCons (⟨s, ⟨0, 0⟩⟩, ⟨s, s⟩) (f4Lookups t e ((s + 1) % 4294967296) fuel) := by
  simp only [f4Lookups]
  rw [if_neg (by omega), if_pos (by omega)]

/-- Format 4, no segment found: one missing-glyph push and a u32 `+= 1`. -/
lemma f4Lookups_notfound (t : Format4Arrays) (e s fuel : Nat) (hse : s ≤ e) (hs : s ≤ 65535)
    (hf : findSegment t.end_codes t.start_codes s (t.seg_count + 1) 0 t.seg_count = .ok none) :
    f4Lookups t e s (fuel + 1) =
      pushCons (⟨s, ⟨0, 0⟩⟩, ⟨s, s⟩) (f4Lookups t e ((s + 1) % 4294967296) fuel) := by
  have hmod : s % 65536 = s := by omega
  simp only [f4Lookups, hmod]
  rw [if_neg (by omega), if_neg (by omega), hf]

/-- Format 4, segment found: clip the end, move the cursor (u16 increment),
then either the direct-mapped push or the indirect inner loop. -/
lemma f4Lookups_found (t : Format4Arrays) (e s fuel i sc ec iro : Nat) (δ : Int)
    (hse : s ≤ e) (hs : s ≤ 65535)
    (hf : findSegment t.end_codes t.start_codes s (t.seg_count + 1) 0 t.seg_count = .ok (some i))
    (hsc : readU16At t.start_codes (i * 2) = .ok sc)
    (hec : readU16At t.end_codes (i * 2) = .ok ec)
    (hro : readU16At t.id_range_offsets (i * 2) = .ok iro)
    (hd : readI16At t.id_deltas (i * 2) = .ok δ) :
    f4Lookups t e s (fuel + 1) =
      if iro = 0 then
        pushCons (⟨s, ⟨wrapAddI16 s δ, wrapAddI16 (min (e % 65536) ec) δ⟩⟩,
                  ⟨s, min (e % 65536) ec⟩)
          (f4Lookups t e ((min (e % 65536) ec + 1) % 65536) fuel)
      else
        pushAll
          (f4IndirectLookups t.id_range_offsets i iro δ sc
            ((s + 65536 - sc) % 65536)
            (((min (e % 65536) ec + 65536 - sc) % 65536 + 1) % 65536 - (s + 65536 - sc) % 65536))
          (f4Lookups t e ((min (e % 65536) ec + 1) % 65536) fuel) := by
  have hmod : s % 65536 = s := by omega
  simp only [f4Lookups, hmod]
  rw [if_neg (by omega), if_neg (by omega), hf]
  simp only [hsc, hec, hro, hd]

/-- Format 12, no group found: one missing-glyph push and a u32 `+= 1`. -/
lemma f12Lookups_notfound (groups : List Nat) (ng e s fuel : Nat) (hse : s ≤ e)
    (hf : findGroup groups s (fuel + 1) 0 ng = some (.ok none)) :
    f12Lookups groups ng e s (fuel + 1) =
      pushCons (⟨s, ⟨0, 0⟩⟩, ⟨s, s⟩) (f12Lookups groups ng e ((s + 1) % 4294967296) fuel) := by
  simp only [f12Lookups]
  rw [if_neg (by omega), hf]

/-- Format 12, group found: one push for the clipped sub-range, with the
glyph ids computed by the wrapping u32 arithmetic of lines 315-318, truncated
to u16. -/
lemma f12Lookups_found (groups : List Nat) (ng e s fuel : Nat) (seg : Segment) (hse : s ≤ e)
    (hf : findGroup groups s (fuel + 1) 0 ng = some (.ok (some seg))) :
    f12Lookups groups ng e s (fuel + 1) =
      pushCons
        (⟨s, ⟨((seg.start_glyph_id + s) % 4294967296 + 4294967296 -
                seg.start_char_code) % 4294967296 % 65536,
              ((seg.start_glyph_id + min e seg.end_char_code) % 4294967296 + 4294967296 -
                seg.start_char_code) % 4294967296 % 65536⟩⟩,
         ⟨s, min e seg.end_char_code⟩)
        (f12Lookups groups ng e ((min e seg.end_char_code + 1) % 4294967296) fuel) := by
  simp only [f12Lookups]
  rw [if_neg (by omega), hf]

/-- Big-endian u32 reads produce values below `2^32`. -/
lemma readU32_bound (bs : List Nat) (v : Nat) (rest : List Nat)
    (h : readU32 bs = .ok (v, rest)) : v < 4294967296 := by
  rcases bs with _ | ⟨b0, _ | ⟨b1, _ | ⟨b2, _ | ⟨b3, tl⟩⟩⟩⟩ <;> simp [readU32] at h
  have h0 : b0 % 256 < 256 := Nat.mod_lt _ (by omega)
  have h1 : b1 % 256 < 256 := Nat.mod_lt _ (by omega)
  have h2 : b2 % 256 < 256 := Nat.mod_lt _ (by omega)
  have h3 : b3 % 256 < 256 := Nat.mod_lt _ (by omega)
  omega

/-- All three fields of a Format 12 group are u32 values. -/
lemma readSegment_bound (groups : List Nat) (mid : Nat) (seg : Segment)
    (h : readSegment groups mid = .ok seg) :
    seg.start_char_code < 4294967296 ∧ seg.end_char_code < 4294967296 ∧
      seg.start_glyph_id < 4294967296 := by
  unfold readSegment at h
  split at h
  · exact absurd h (by simp)
  · split at h
    · exact absurd h (by simp)
    · rename_i scc b1 hscc
      split at h
      · exact absurd h (by simp)
      · rename_i ecc b2 hecc
        split at h
        · exact absurd h (by simp)
        · rename_i sgid b3 hsgid
          simp only [Except.ok.injEq] at h
          subst h
          exact ⟨readU32_bound _ _ _ hscc, readU32_bound _ _ _ hecc, readU32_bound _ _ _ hsgid⟩

/-- The u32 wrapping subtraction followed by u16 truncation agrees with plain
subtraction mod `2^16` when no underflow occurs. -/
lemma u32_wrap_sub_mod (x b : Nat) (hbx : b ≤ x) (hb : b < 4294967296) :
    (x % 4294967296 + 4294967296 - b) % 4294967296 % 65536 = (x - b) % 65536 := by
  have h1 : x % 4294967296 + 4294967296 - b = x % 4294967296 + (4294967296 - b) := by omega
  rw [h1, Nat.mod_add_mod]
  have h2 : x + (4294967296 - b) = (x - b) + 4294967296 := by omega
  rw [h2, Nat.add_mod_right]
  exact Nat.mod_mod_of_dvd _ (by norm_num)

/-! ## Claims C5, C6, C7, C9 -/

/-- Claim C5: in the Format 4 direct-mapped case (`id_range_offset[i] = 0`)
exactly one `MappedGlyphRange` is pushed for the covered sub-range
`[cp_start_u16, cp_end_clipped]`, with `glyphs.start = (cp_start_u16 as
i16).wrapping_add(id_delta) as u16` and `glyphs.end = (cp_end_clipped as
i16).wrapping_add(id_delta) as u16`: the actual codepoint, not the code
offset, is added to `id_delta` mod `2^16`. -/
theorem claim5_direct_mapped (t : Format4Arrays) (e s fuel i sc ec : Nat) (δ : Int)
    (hse : s ≤ e) (hs : s ≤ 65535)
    (hf : findSegment t.end_codes t.start_codes s (t.seg_count + 1) 0 t.seg_count = .ok (some i))
    (hsc : readU16At t.start_codes (i * 2) = .ok sc)
    (hec : readU16At t.end_codes (i * 2) = .ok ec)
    (hro : readU16At t.id_range_offsets (i * 2) = .ok 0)
    (hd : readI16At t.id_deltas (i * 2) = .ok δ) :
    f4Lookups t e s (fuel + 1) =
      pushCons (⟨s, ⟨wrapAddI16 s δ, wrapAddI16 (min (e % 65536) ec) δ⟩⟩,
                ⟨s, min (e % 65536) ec⟩)
        (f4Lookups t e ((min (e % 65536) ec + 1) % 65536) fuel) := by
  rw [f4Lookups_found t e s fuel i sc ec 0 δ hse hs hf hsc hec hro hd, if_pos rfl]

/-- One direct-mapped segment `[0x41, 0x5A]` with `id_delta = -32`
(`0xFFE0`): the concrete scenario of claim C5. -/
def tblAZdelta : Format4Arrays :=
  ⟨1, [0x00, 0x5A], [0x00, 0x41], [0xFF, 0xE0], [0x00, 0x00]⟩

theorem claim5_direct_mapped_witness :
    f4Lookups tblAZdelta 0x5A 0x41 2 =
      some (.ok [(⟨0x41, ⟨0x21, 0x3A⟩⟩, ⟨0x41, 0x5A⟩)]) := by
  rw [claim5_direct_mapped tblAZdelta 0x5A 0x41 1 0 0x41 0x5A (-32)
      (by omega) (by omega) rfl rfl rfl rfl (by decide)]
  rfl

/-- Claim C6: in the Format 12 resolver, a found group yields exactly one
`MappedGlyphRange` with `codepoint_start = start`, glyph ids
`start_glyph_id + start - start_char_code` and
`start_glyph_id + end_clipped - start_char_code` truncated to u16 (where
`end_clipped = min(end, end_char_code)`), and the cursor moves to
`end_clipped + 1`. -/
theorem claim6_f12_found (groups : List Nat) (ng e s fuel : Nat) (seg : Segment)
    (hse : s ≤ e)
    (hf : findGroup groups s (fuel + 1) 0 ng = some (.ok (some seg))) :
    f12Lookups groups ng e s (fuel + 1) =
      pushCons
        (⟨s, ⟨(seg.start_glyph_id + s - seg.start_char_code) % 65536,
              (seg.start_glyph_id + min e seg.end_char_code - seg.start_char_code) % 65536⟩⟩,
         ⟨s, min e seg.end_char_code⟩)
        (f12Lookups groups ng e ((min e seg.end_char_code + 1) % 4294967296) fuel) := by
  obtain ⟨⟨mid, hrd⟩, hlo, hhi⟩ := findGroup_found groups s (fuel + 1) 0 ng seg hf
  obtain ⟨hb1, hb2, hb3⟩ := readSegment_bound groups mid seg hrd
  rw [f12Lookups_found groups ng e s fuel seg hse hf]
  rw [u32_wrap_sub_mod (seg.start_glyph_id + s) seg.start_char_code (by omega) (by omega)]
  rw [u32_wrap_sub_mod (seg.start_glyph_id + min e seg.end_char_code) seg.start_char_code
      (by omega) (by omega)]

/-- One Format 12 group `{0x1F600, 0x1F64F, 1000}`: the concrete scenario of
claim C6. -/
def grp12 : List Nat :=
  [0x00, 0x01, 0xF6, 0x00, 0x00, 0x01, 0xF6, 0x4F, 0x00, 0x00, 0x03, 0xE8]

theorem claim6_f12_found_witness :
    0x1F610 ≤ 0x1F620 ∧
      f12Lookups grp12 1 0x1F620 0x1F610 2 =
        some (.ok [(⟨0x1F610, ⟨1016, 1032⟩⟩, ⟨0x1F610, 0x1F620⟩)]) := by
  refine ⟨by omega, ?_⟩
  rw [claim6_f12_found grp12 1 0x1F620 0x1F610 1 ⟨0x1F600, 0x1F64F, 1000⟩ (by omega) rfl]
  rfl

/-- Claim C7: in both resolvers a codepoint no segment/group contains yields
exactly one missing-glyph push `{codepoint_start: start, glyphs: {0,0}}`
covering only that codepoint, and the cursor advances by exactly 1; a Format 4
`start` above `0xFFFF` behaves the same way; none of these are errors (the
rest of the loop proceeds and a successful remainder still gives `Ok`). -/
theorem claim7_missing_glyph_singletons :
    (∀ (t : Format4Arrays) (e s fuel : Nat), s ≤ e → 65535 < s →
      f4Lookups t e s (fuel + 1) =
        pushCons (⟨s, ⟨0, 0⟩⟩, ⟨s, s⟩) (f4Lookups t e ((s + 1) % 4294967296) fuel)) ∧
    (∀ (t : Format4Arrays) (e s fuel : Nat), s ≤ e → s ≤ 65535 →
      findSegment t.end_codes t.start_codes s (t.seg_count + 1) 0 t.seg_count = .ok none →
      f4Lookups t e s (fuel + 1) =
        pushCons (⟨s, ⟨0, 0⟩⟩, ⟨s, s⟩) (f4Lookups t e ((s + 1) % 4294967296) fuel)) ∧
    (∀ (groups : List Nat) (ng e s fuel : Nat), s ≤ e →
      findGroup groups s (fuel + 1) 0 ng = some (.ok none) →
      f12Lookups groups ng e s (fuel + 1) =
        pushCons (⟨s, ⟨0, 0⟩⟩, ⟨s, s⟩) (f12Lookups groups ng e ((s + 1) % 4294967296) fuel)) := by
  refine ⟨?_, ?_, ?_⟩
  · exact fun t e s fuel h1 h2 => f4Lookups_aboveBMP t e s fuel h1 h2
  · exact fun t e s fuel h1 h2 h3 => f4Lookups_notfound t e s fuel h1 h2 h3
  · exact fun groups ng e s fuel h1 h2 => f12Lookups_notfound groups ng e s fuel h1 h2

theorem claim7_missing_glyph_singletons_witness :
    (f4Lookups tblAZ 65537 65536 2 =
      pushCons (⟨65536, ⟨0, 0⟩⟩, ⟨65536, 65536⟩) (f4Lookups tblAZ 65537 65537 1)) ∧
    (f4Lookups tblAZ 1 1 2 =
      pushCons (⟨1, ⟨0, 0⟩⟩, ⟨1, 1⟩) (f4Lookups tblAZ 1 2 1)) ∧
    (f12Lookups [] 0 5 5 2 =
      pushCons (⟨5, ⟨0, 0⟩⟩, ⟨5, 5⟩) (f12Lookups [] 0 5 6 1)) := by
  refine ⟨?_, ?_, ?_⟩
  · exact claim7_missing_glyph_singletons.1 tblAZ 65537 65536 1 (by omega) (by omega)
  · exact claim7_missing_glyph_singletons.2.1 tblAZ 1 1 1 (by omega) (by omega) rfl
  · exact claim7_missing_glyph_singletons.2.2 [] 0 5 5 1 (by omega) rfl

/-- Claim C9: the Format 4 direct-mapped case pushes the wrapped glyph ids
unconditionally — a wrapping add that produces 0 yields an ordinary mapped
entry — while the indirect case tests the raw glyph id: 0 becomes the
missing-glyph sentinel (without adding `id_delta`), nonzero gets `id_delta`
wrapping-added. -/
theorem claim9_zero_glyph_handling :
    (∀ (t : Format4Arrays) (e s fuel i sc ec : Nat) (δ : Int),
      s ≤ e → s ≤ 65535 →
      findSegment t.end_codes t.start_codes s (t.seg_count + 1) 0 t.seg_count = .ok (some i) →
      readU16At t.start_codes (i * 2) = .ok sc →
      readU16At t.end_codes (i * 2) = .ok ec →
      readU16At t.id_range_offsets (i * 2) = .ok 0 →
      readI16At t.id_deltas (i * 2) = .ok δ →
      wrapAddI16 s δ = 0 →
      f4Lookups t e s (fuel + 1) =
        pushCons (⟨s, ⟨0, wrapAddI16 (min (e % 65536) ec) δ⟩⟩, ⟨s, min (e % 65536) ec⟩)
          (f4Lookups t e ((min (e % 65536) ec + 1) % 65536) fuel)) ∧
    (∀ (irol : List Nat) (i iro : Nat) (δ : Int) (sc off n : Nat),
      readU16At irol (i * 2 + off * 2 + iro) = .ok 0 →
      f4IndirectLookups irol i iro δ sc off (n + 1) =
        consEntry (⟨sc + off, ⟨0, 0⟩⟩, ⟨sc + off, sc + off⟩)
          (f4IndirectLookups irol i iro δ sc (off + 1) n)) ∧
    (∀ (irol : List Nat) (i iro : Nat) (δ : Int) (sc off n g : Nat),
      readU16At irol (i * 2 + off * 2 + iro) = .ok g → g ≠ 0 →
      f4IndirectLookups irol i iro δ sc off (n + 1) =
        consEntry (⟨sc + off, ⟨wrapAddI16 g δ, wrapAddI16 g δ⟩⟩, ⟨sc + off, sc + off⟩)
          (f4IndirectLookups irol i iro δ sc (off + 1) n)) := by
  refine ⟨?_, ?_, ?_⟩
  · intro t e s fuel i sc ec δ h1 h2 hf hsc hec hro hd hz
    rw [f4Lookups_found t e s fuel i sc ec 0 δ h1 h2 hf hsc hec hro hd, if_pos rfl, hz]
  · intro irol i iro δ sc off n h
    simp only [f4IndirectLookups, h]
    simp
  · intro irol i iro δ sc off n g h hg
    simp only [f4IndirectLookups, h]
    rw [if_neg hg]

/-- One direct-mapped segment `[0x41, 0x41]` whose `id_delta = -0x41`
(`0xFFBF`) maps codepoint `0x41` to glyph 0 through the wrapping add. -/
def tblZeroDelta : Format4Arrays :=
  ⟨1, [0x00, 0x41], [0x00, 0x41], [0xFF, 0xBF], [0x00, 0x00]⟩

/-- Glyph-id bytes of the indirect scenario: `id_range_offset[0] = 2` and raw
glyph ids `5, 0, 7` at offsets 2, 4, 6. -/
def irolX : List Nat := [0x00, 0x02, 0x00, 0x05, 0x00, 0x00, 0x00, 0x07]

theorem claim9_zero_glyph_handling_witness :
    (f4Lookups tblZeroDelta 0x41 0x41 2 =
      some (.ok [(⟨0x41, ⟨0, 0⟩⟩, ⟨0x41, 0x41⟩)])) ∧
    (f4IndirectLookups irolX 0 2 0 0x30 1 1 =
      consEntry (⟨0x31, ⟨0, 0⟩⟩, ⟨0x31, 0x31⟩) (f4IndirectLookups irolX 0 2 0 0x30 2 0)) ∧
    (f4IndirectLookups irolX 0 2 0 0x30 2 1 =
      consEntry (⟨0x32, ⟨7, 7⟩⟩, ⟨0x32, 0x32⟩) (f4IndirectLookups irolX 0 2 0 0x30 3 0)) := by
  refine ⟨?_, ?_, ?_⟩
  · rw [claim9_zero_glyph_handling.1 tblZeroDelta 0x41 0x41 1 0 0x41 0x41 (-65)
        (by omega) (by omega) rfl rfl rfl (by decide) (by decide) (by decide)]
    rfl
  · exact claim9_zero_glyph_handling.2.1 irolX 0 2 0 0x30 1 0 rfl
  · have h7 : readU16At irolX (0 * 2 + 2 * 2 + 2) = .ok 7 := rfl
    exact claim9_zero_glyph_handling.2.2 irolX 0 2 0 0x30 2 0 7 h7 (by omega)

/-! ## Claim C4: where the indirect case reads its glyph ids -/

/-- Modelled from the spec (the wording of claim C4): an indirect lookup whose
`code_offset` counts from the *query start* `cp_start_u16` and reads at
`base(id_range_offset) + i*2 + code_offset*2 + id_range_offset[i]`; kept for
comparison with `f4IndirectLookups`, which counts `code_offset` from the
segment's `start_code`. -/
def f4IndirectPerClaim (id_range_offsets : List Nat) (segment_index id_range_offset : Nat)
    (id_delta : Int) (cp_start : Nat) :
    Nat → Nat → Except FontError (List SpannedEntry)
  | _, 0 => .ok []
  | code_offset, n + 1 =>
    match readU16At id_range_offsets
            (segment_index * 2 + code_offset * 2 + id_range_offset) with
    | .error e => .error e
    | .ok glyph_id =>
      let entry : MappedGlyphRange :=
        if glyph_id = 0 then ⟨cp_start + code_offset, ⟨0, 0⟩⟩
        else ⟨cp_start + code_offset,
              ⟨wrapAddI16 glyph_id id_delta, wrapAddI16 glyph_id id_delta⟩⟩
      consEntry (entry, ⟨cp_start + code_offset, cp_start + code_offset⟩)
        (f4IndirectPerClaim id_range_offsets segment_index id_range_offset id_delta
          cp_start (code_offset + 1) n)

/-- Segment `[0x30, 0x32]` with `id_range_offset[0] = 2`, `id_delta = 0` and
raw glyph ids `5, 0, 7` for codepoints `0x30, 0x31, 0x32`. -/
def tblInd : Format4Arrays :=
  ⟨1, [0x00, 0x32], [0x00, 0x30], [0x00, 0x00], irolX⟩

/-- Claim C4, counterexample: for the query `[0x31, 0x32]` (starting one past
the segment start) the code pushes `{0x31: missing}` and `{0x32: glyph 7}` —
the reads happen at byte offsets `4` and `6`, i.e. `code_offset` counts from
`start_code = 0x30` — while the claim's formula (`code_offset` counting from
the query start `0x31`) would read at offsets `2` and `4` and produce
`{0x31: glyph 5}`, `{0x32: missing}`. -/
theorem claim4_counterexample :
    f4Lookups tblInd 0x32 0x31 3 =
      some (.ok [(⟨0x31, ⟨0, 0⟩⟩, ⟨0x31, 0x31⟩), (⟨0x32, ⟨7, 7⟩⟩, ⟨0x32, 0x32⟩)]) ∧
    f4IndirectPerClaim irolX 0 2 0 0x31 0 2 =
      .ok [(⟨0x31, ⟨5, 5⟩⟩, ⟨0x31, 0x31⟩), (⟨0x32, ⟨0, 0⟩⟩, ⟨0x32, 0x32⟩)] ∧
    ([(⟨0x31, ⟨0, 0⟩⟩, ⟨0x31, 0x31⟩), (⟨0x32, ⟨7, 7⟩⟩, ⟨0x32, 0x32⟩)] : List SpannedEntry) ≠
      [(⟨0x31, ⟨5, 5⟩⟩, ⟨0x31, 0x31⟩), (⟨0x32, ⟨0, 0⟩⟩, ⟨0x32, 0x32⟩)] := by
  refine ⟨by decide, by decide, by decide⟩

/-- Claim C4, amended: in the indirect case `code_offset` counts from the
segment's `start_code`.  Part 1: starting at `code_offset = off` and running
`n` times, the loop reads the glyph id for codepoint `start_code + off + k` at
byte offset `i*2 + (off+k)*2 + id_range_offset` inside the `id_range_offset`
region.  Part 2: the main loop invokes it with `code_offset` from
`cp_start_u16 - start_code[i]` to `cp_end_clipped - start_code[i]`. -/
theorem claim4_amended_segment_relative_offsets :
    (∀ (irol : List Nat) (i iro : Nat) (δ : Int) (sc : Nat) (g : Nat → Nat) (n off : Nat),
      (∀ k, k < n → readU16At irol (i * 2 + (off + k) * 2 + iro) = .ok (g k)) →
      f4IndirectLookups irol i iro δ sc off n =
        .ok ((List.range n).map fun k =>
          (if g k = 0 then ⟨sc + off + k, ⟨0, 0⟩⟩
           else ⟨sc + off + k, ⟨wrapAddI16 (g k) δ, wrapAddI16 (g k) δ⟩⟩,
           ⟨sc + off + k, sc + off + k⟩))) ∧
    (∀ (t : Format4Arrays) (e s fuel i sc ec iro : Nat) (δ : Int),
      s ≤ e → s ≤ 65535 → iro ≠ 0 →
      findSegment t.end_codes t.start_codes s (t.seg_count + 1) 0 t.seg_count =
        .ok (some i) →
      readU16At t.start_codes (i * 2) = .ok sc →
      readU16At t.end_codes (i * 2) = .ok ec →
      readU16At t.id_range_offsets (i * 2) = .ok iro →
      readI16At t.id_deltas (i * 2) = .ok δ →
      s ≤ min (e % 65536) ec → min (e % 65536) ec - sc < 65535 →
      f4Lookups t e s (fuel + 1) =
        pushAll
          (f4IndirectLookups t.id_range_offsets i iro δ sc (s - sc)
            (min (e % 65536) ec + 1 - s))
          (f4Lookups t e ((min (e % 65536) ec + 1) % 65536) fuel)) := by
  constructor
  · intro irol i iro δ sc g n
    induction n generalizing g with
    | zero => intro off _; simp [f4IndirectLookups]
    | succ m ih =>
      intro off hg
      have h0 : readU16At irol (i * 2 + off * 2 + iro) = .ok (g 0) := by
        have h := hg 0 (by omega)
        simpa using h
      have hg' : ∀ k, k < m →
          readU16At irol (i * 2 + (off + 1 + k) * 2 + iro) = .ok (g (k + 1)) := by
        intro k hk
        have h := hg (k + 1) (by omega)
        have harg : off + (k + 1) = off + 1 + k := by omega
        rw [harg] at h
        exact h
      simp only [f4IndirectLookups, h0]
      rw [ih (fun j => g (j + 1)) (off + 1) hg']
      simp only [consEntry]
      rw [List.range_succ_eq_map]
      simp only [List.map_cons, List.map_map, Except.ok.injEq, List.cons.injEq]
      refine ⟨by norm_num, ?_⟩
      refine List.map_congr_left ?_
      intro a ha
      simp only [Function.comp_apply]
      have hidx : sc + (off + 1) + a = sc + off + (a + 1) := by omega
      rw [hidx]
  · intro t e s fuel i sc ec iro δ h1 h2 hiro hf hsc hec hro hd hfwd hnw
    obtain ⟨ec', sc', hec', hsc', hle1, hle2⟩ :=
      findSegment_found t.end_codes t.start_codes s (t.seg_count + 1) 0 t.seg_count i hf
    rw [hsc] at hsc'
    rw [hec] at hec'
    have hscv : sc = sc' := by injection hsc'
    have hecv : ec = ec' := by injection hec'
    rw [← hscv] at hle1
    rw [← hecv] at hle2
    rw [f4Lookups_found t e s fuel i sc ec iro δ h1 h2 hf hsc hec hro hd, if_neg hiro]
    have hoff : (s + 65536 - sc) % 65536 = s - sc := by omega
    rw [hoff]
    have hcnt : ((min (e % 65536) ec + 65536 - sc) % 65536 + 1) % 65536 -
        (s - sc) = min (e % 65536) ec + 1 - s := by
      have hm : e % 65536 < 65536 := Nat.mod_lt _ (by omega)
      omega
    rw [hcnt]

theorem claim4_amended_segment_relative_offsets_witness :
    (f4IndirectLookups irolX 0 2 0 0x30 0 3 =
      .ok [(⟨0x30, ⟨5, 5⟩⟩, ⟨0x30, 0x30⟩), (⟨0x31, ⟨0, 0⟩⟩, ⟨0x31, 0x31⟩),
           (⟨0x32, ⟨7, 7⟩⟩, ⟨0x32, 0x32⟩)]) ∧
    (f4Lookups tblInd 0x32 0x31 3 =
      pushAll (f4IndirectLookups irolX 0 2 0 0x30 1 2) (f4Lookups tblInd 0x32 0x33 2)) := by
  constructor
  · have h := claim4_amended_segment_relative_offsets.1 irolX 0 2 0 0x30
      (fun k => if k = 0 then 5 else if k = 1 then 0 else 7) 3 0 (by decide)
    rw [h]
    rfl
  · exact claim4_amended_segment_relative_offsets.2 tblInd 0x32 0x31 2 0 0x30 0x32 2 0
      (by omega) (by omega) (by omega) rfl rfl rfl rfl (by decide) (by decide) (by decide)

/-! ## Every resolver-produced error is the end-of-data error -/

lemma readU16_error : ∀ (b : List Nat) (e : FontError), readU16 b = .error e → e = .eof
  | [], _, h => (Except.error.inj h).symm
  | [_], _, h => (Except.error.inj h).symm
  | _ :: _ :: _, _, h => by simp [readU16] at h

lemma readU32_error : ∀ (b : List Nat) (e : FontError), readU32 b = .error e → e = .eof
  | [], _, h => (Except.error.inj h).symm
  | [_], _, h => (Except.error.inj h).symm
  | [_, _], _, h => (Except.error.inj h).symm
  | [_, _, _], _, h => (Except.error.inj h).symm
  | _ :: _ :: _ :: _ :: _, _, h => by simp [readU32] at h

lemma jump_error (n : Nat) (b : List Nat) (e : FontError) (h : jump n b = .error e) :
    e = .eof := by
  unfold jump at h
  split at h
  · simp at h
  · exact (Except.error.inj h).symm

lemma readU16At_error (b : List Nat) (off : Nat) (e : FontError)
    (h : readU16At b off = .error e) : e = .eof := by
  unfold readU16At at h
  split at h
  · rename_i e' heq
    cases Except.error.inj h
    exact jump_error _ _ _ heq
  · split at h
    · rename_i e' heq
      cases Except.error.inj h
      exact readU16_error _ _ heq
    · simp at h

lemma readI16At_error (b : List Nat) (off : Nat) (e : FontError)
    (h : readI16At b off = .error e) : e = .eof := by
  unfold readI16At at h
  split at h
  · rename_i e' heq
    cases Except.error.inj h
    exact readU16At_error _ _ _ heq
  · simp at h

lemma findSegment_error (ecs scs : List Nat) (cp : Nat) :
    ∀ (fuel low high : Nat) (e : FontError),
      findSegment ecs scs cp fuel low high = .error e → e = .eof := by
  intro fuel
  induction fuel with
  | zero => intro low high e h; simp [findSegment] at h
  | succ n ih =>
    intro low high e h
    simp only [findSegment] at h
    split at h
    · split at h
      · rename_i e' heq
        cases Except.error.inj h
        exact readU16At_error _ _ _ heq
      · split at h
        · exact ih _ _ _ h
        · split at h
          · rename_i e' heq
            cases Except.error.inj h
            exact readU16At_error _ _ _ heq
          · split at h
            · exact ih _ _ _ h
            · simp at h
    · simp at h

lemma f4IndirectLookups_error (irol : List Nat) (i iro : Nat) (δ : Int) (sc : Nat) :
    ∀ (n off : Nat) (e : FontError),
      f4IndirectLookups irol i iro δ sc off n = .error e → e = .eof := by
  intro n
  induction n with
  | zero => intro off e h; simp [f4IndirectLookups] at h
  | succ m ih =>
    intro off e h
    simp only [f4IndirectLookups] at h
    split at h
    · rename_i e' heq
      cases Except.error.inj h
      exact readU16At_error _ _ _ heq
    · unfold consEntry at h
      split at h
      · rename_i heq
        cases Except.error.inj h
        exact ih _ _ heq
      · simp at h

lemma pushCons_error (p : SpannedEntry) (r : LookupResult) (e : FontError)
    (h : pushCons p r = some (.error e)) : r = some (.error e) := by
  unfold pushCons at h
  split at h
  · simp at h
  · exact h
  · simp at h

lemma pushAll_error (r1 : Except FontError (List SpannedEntry)) (r2 : LookupResult)
    (e : FontError) (h : pushAll r1 r2 = some (.error e)) :
    r1 = .error e ∨ r2 = some (.error e) := by
  unfold pushAll at h
  split at h
  · exact .inl (Option.some.inj h)
  · split at h
    · simp at h
    · exact .inr h
    · simp at h

lemma f4Lookups_error (t : Format4Arrays) (e : Nat) :
    ∀ (fuel s : Nat) (err : FontError),
      f4Lookups t e s fuel = some (.error err) → err = .eof := by
  intro fuel
  induction fuel with
  | zero => intro s err h; simp [f4Lookups] at h
  | succ n ih =>
    intro s err h
    simp only [f4Lookups] at h
    split at h
    · simp at h
    · split at h
      · exact ih _ _ (pushCons_error _ _ _ h)
      · split at h
        · rename_i e' heq
          cases Option.some.inj h
          exact findSegment_error _ _ _ _ _ _ _ heq
        · exact ih _ _ (pushCons_error _ _ _ h)
        · split at h
          · rename_i e' heq
            cases Option.some.inj h
            exact readU16At_error _ _ _ heq
          · split at h
            · rename_i e' heq
              cases Option.some.inj h
              exact readU16At_error _ _ _ heq
            · split at h
              · rename_i e' heq
                cases Option.some.inj h
                exact readU16At_error _ _ _ heq
              · split at h
                · rename_i e' heq
                  cases Option.some.inj h
                  exact readI16At_error _ _ _ heq
                · split at h
                  · exact ih _ _ (pushCons_error _ _ _ h)
                  · rcases pushAll_error _ _ _ h with h1 | h1
                    · exact f4IndirectLookups_error _ _ _ _ _ _ _ _ h1
                    · exact ih _ _ h1

lemma f4LookupsAll_error (t : Format4Arrays) :
    ∀ (ranges : List CodepointRange) (fuel : Nat) (err : FontError),
      f4LookupsAll t ranges fuel = some (.error err) → err = .eof := by
  intro ranges
  induction ranges with
  | nil => intro fuel err h; simp [f4LookupsAll] at h
  | cons r rs ih =>
    intro fuel err h
    simp only [f4LookupsAll] at h
    split at h
    · simp at h
    · rename_i heq
      cases Option.some.inj h
      exact f4Lookups_error _ _ _ _ _ heq
    · split at h
      · simp at h
      · rename_i heq
        cases Option.some.inj h
        exact ih _ _ heq
      · simp at h

lemma f4Parse_error (body : List Nat) (e : FontError) (h : f4Parse body = .error e) :
    e = .eof := by
  unfold f4Parse at h
  dsimp only at h
  repeat' split at h
  all_goals
    first
    | (simp at h
       done)
    | (cases Except.error.inj h
       first
       | exact readU16_error _ _ (by assumption)
       | exact jump_error _ _ _ (by assumption))

lemma glyph_mapping_format4_error (body : List Nat) (ranges : List CodepointRange)
    (fuel : Nat) (e : FontError)
    (h : glyph_mapping_for_codepoint_ranges_segment_mapping_format body ranges fuel =
      some (.error e)) : e = .eof := by
  unfold glyph_mapping_for_codepoint_ranges_segment_mapping_format at h
  split at h
  · rename_i e' heq
    cases Option.some.inj h
    exact f4Parse_error _ _ heq
  · exact f4LookupsAll_error _ _ _ _ h

lemma readSegment_error (groups : List Nat) (mid : Nat) (e : FontError)
    (h : readSegment groups mid = .error e) : e = .eof := by
  unfold readSegment at h
  repeat' split at h
  all_goals
    first
    | (simp at h
       done)
    | (cases Except.error.inj h
       first
       | exact readU32_error _ _ (by assumption)
       | exact jump_error _ _ _ (by assumption))

lemma findGroup_error (groups : List Nat) (cp : Nat) :
    ∀ (fuel low high : Nat) (e : FontError),
      findGroup groups cp fuel low high = some (.error e) → e = .eof := by
  intro fuel
  induction fuel with
  | zero => intro low high e h; simp [findGroup] at h
  | succ n ih =>
    intro low high e h
    simp only [findGroup] at h
    split at h
    · split at h
      · rename_i e' heq
        cases Option.some.inj h
        exact readSegment_error _ _ _ heq
      · split at h
        · exact ih _ _ _ h
        · split at h
          · exact ih _ _ _ h
          · simp at h
    · simp at h

lemma f12Lookups_error (groups : List Nat) (ng e : Nat) :
    ∀ (fuel s : Nat) (err : FontError),
      f12Lookups groups ng e s fuel = some (.error err) → err = .eof := by
  intro fuel
  induction fuel with
  | zero => intro s err h; simp [f12Lookups] at h
  | succ n ih =>
    intro s err h
    simp only [f12Lookups] at h
    split at h
    · simp at h
    · split at h
      · simp at h
      · rename_i heq
        cases Option.some.inj h
        exact findGroup_error _ _ _ _ _ _ heq
      · exact ih _ _ (pushCons_error _ _ _ h)
      · exact ih _ _ (pushCons_error _ _ _ h)

lemma f12LookupsAll_error (groups : List Nat) (ng : Nat) :
    ∀ (ranges : List CodepointRange) (fuel : Nat) (err : FontError),
      f12LookupsAll groups ng ranges fuel = some (.error err) → err = .eof := by
  intro ranges
  induction ranges with
  | nil => intro fuel err h; simp [f12LookupsAll] at h
  | cons r rs ih =>
    intro fuel err h
    simp only [f12LookupsAll] at h
    split at h
    · simp at h
    · rename_i heq
      cases Option.some.inj h
      exact f12Lookups_error _ _ _ _ _ _ heq
    · split at h
      · simp at h
      · rename_i heq
        cases Option.some.inj h
        exact ih _ _ heq
      · simp at h

lemma f12Parse_error (body : List Nat) (e : FontError) (h : f12Parse body = .error e) :
    e = .eof := by
  unfold f12Parse at h
  repeat' split at h
  all_goals
    first
    | (simp at h
       done)
    | (cases Except.error.inj h
       first
       | exact readU16_error _ _ (by assumption)
       | exact readU32_error _ _ (by assumption))

lemma glyph_mapping_format12_error (body : List Nat) (ranges : List CodepointRange)
    (fuel : Nat) (e : FontError)
    (h : glyph_mapping_for_codepoint_ranges_segmented_coverage body ranges fuel =
      some (.error e)) : e = .eof := by
  unfold glyph_mapping_for_codepoint_ranges_segmented_coverage at h
  split at h
  · rename_i e' heq
    cases Option.some.inj h
    exact f12Parse_error _ _ heq
  · exact f12LookupsAll_error _ _ _ _ _ h

lemma findEncodingRecord_error :
    ∀ (n : Nat) (bytes : List Nat) (e : FontError),
      findEncodingRecord bytes n = .error e → e = .eof := by
  intro n
  induction n with
  | zero => intro bytes e h; simp [findEncodingRecord] at h
  | succ m ih =>
    intro bytes e h
    simp only [findEncodingRecord] at h
    split at h
    · rename_i e' heq
      cases Except.error.inj h
      exact readU16_error _ _ heq
    · split at h
      · rename_i e' heq
        cases Except.error.inj h
        exact readU16_error _ _ heq
      · split at h
        · rename_i e' heq
          cases Except.error.inj h
          exact readU32_error _ _ heq
        · split at h
          · simp at h
          · exact ih _ _ h

/-! ## Claim C8: the subtable selector -/

lemma with_spans_select_error (table : List Nat) (ranges : List CodepointRange)
    (fuel : Nat) (e : FontError) (h : selectSubtable table = .error e) :
    glyph_mapping_for_codepoint_ranges_with_spans table ranges fuel = some (.error e) := by
  unfold glyph_mapping_for_codepoint_ranges_with_spans
  rw [h]

lemma top_select_error (table : List Nat) (ranges : List CodepointRange)
    (fuel : Nat) (e : FontError) (h : selectSubtable table = .error e) :
    glyph_mapping_for_codepoint_ranges table ranges fuel = some (.error e) := by
  unfold glyph_mapping_for_codepoint_ranges
  rw [with_spans_select_error table ranges fuel e h]

lemma with_spans_select_ok (table : List Nat) (ranges : List CodepointRange)
    (fuel format : Nat) (body : List Nat)
    (h : selectSubtable table = .ok (format, body)) :
    glyph_mapping_for_codepoint_ranges_with_spans table ranges fuel =
      if format = 4 then
        glyph_mapping_for_codepoint_ranges_segment_mapping_format body ranges fuel
      else if format = 12 then
        glyph_mapping_for_codepoint_ranges_segmented_coverage body ranges fuel
      else some (.error .unsupportedCmapFormat) := by
  unfold glyph_mapping_for_codepoint_ranges_with_spans
  rw [h]

lemma top_error_iff_spans (table : List Nat) (ranges : List CodepointRange)
    (fuel : Nat) (e : FontError) :
    glyph_mapping_for_codepoint_ranges table ranges fuel = some (.error e) ↔
      glyph_mapping_for_codepoint_ranges_with_spans table ranges fuel = some (.error e) := by
  unfold glyph_mapping_for_codepoint_ranges
  constructor
  · intro h
    split at h
    · simp at h
    · rename_i heq
      cases Except.error.inj (Option.some.inj h)
      exact heq
    · simp at h
  · intro h
    rw [h]

/-- Exhaustive description of the errors `selectSubtable` can raise. -/
lemma selectSubtable_error_cases (table : List Nat) (e : FontError)
    (h : selectSubtable table = .error e) :
    e = .eof ∨
    (e = .unsupportedCmapVersion ∧ ∃ v r, readU16 table = .ok (v, r) ∧ v ≠ 0) ∨
    (e = .unsupportedCmapEncoding ∧ ∃ v r1 nt r2, readU16 table = .ok (v, r1) ∧ v = 0 ∧
      readU16 r1 = .ok (nt, r2) ∧ findEncodingRecord r2 nt = .ok none) := by
  unfold selectSubtable at h
  split at h
  · rename_i e' heq
    cases Except.error.inj h
    exact .inl (readU16_error _ _ heq)
  · rename_i v r heq1
    split at h
    · rename_i hv
      cases Except.error.inj h
      exact .inr (.inl ⟨rfl, v, r, heq1, hv⟩)
    · rename_i hv
      split at h
      · rename_i e' heq2
        cases Except.error.inj h
        exact .inl (readU16_error _ _ heq2)
      · rename_i nt r2 heq2
        split at h
        · rename_i e' heq3
          cases Except.error.inj h
          exact .inl (findEncodingRecord_error _ _ _ heq3)
        · rename_i heq3
          cases Except.error.inj h
          exact .inr (.inr ⟨rfl, v, r, nt, r2, heq1, by omega, heq2, heq3⟩)
        · rename_i off heq3
          split at h
          · rename_i e' heq4
            cases Except.error.inj h
            exact .inl (jump_error _ _ _ heq4)
          · rename_i sub heq4
            split at h
            · rename_i e' heq5
              cases Except.error.inj h
              exact .inl (readU16_error _ _ heq5)
            · simp at h

lemma selectSubtable_version_of (table : List Nat) (v : Nat) (r : List Nat)
    (h1 : readU16 table = .ok (v, r)) (h2 : v ≠ 0) :
    selectSubtable table = .error .unsupportedCmapVersion := by
  unfold selectSubtable
  simp only [h1]
  rw [if_pos h2]

lemma selectSubtable_encoding_of (table : List Nat) (v nt : Nat) (r1 r2 : List Nat)
    (h1 : readU16 table = .ok (v, r1)) (h2 : v = 0) (h3 : readU16 r1 = .ok (nt, r2))
    (h4 : findEncodingRecord r2 nt = .ok none) :
    selectSubtable table = .error .unsupportedCmapEncoding := by
  unfold selectSubtable
  simp only [h1]
  rw [if_neg (by omega)]
  simp only [h3, h4]

/-- Big-endian serialization of a u16, for stating the record-scan theorem. -/
def encodeU16 (v : Nat) : List Nat := [v / 256, v % 256]

/-- Big-endian serialization of a u32. -/
def encodeU32 (v : Nat) : List Nat :=
  [v / 16777216, v / 65536 % 256, v / 256 % 256, v % 256]

/-- Modelled from the spec: the on-disk layout of the encoding-record array —
each record is `platform_id: u16`, `encoding_id: u16`, `offset: u32`,
big-endian, laid out consecutively. -/
def encodeRecords : List (Nat × Nat × Nat) → List Nat
  | [] => []
  | (pid, eid, off) :: rs => encodeU16 pid ++ encodeU16 eid ++ encodeU32 off ++ encodeRecords rs

lemma readU16_encode (v : Nat) (hv : v < 65536) (rest : List Nat) :
    readU16 (encodeU16 v ++ rest) = .ok (v, rest) := by
  simp only [encodeU16, List.cons_append, List.nil_append, readU16]
  have h1 : v / 256 < 256 := by omega
  have h2 : v / 256 % 256 = v / 256 := by omega
  have h3 : v % 256 % 256 = v % 256 := by omega
  rw [h2, h3]
  have h4 : v / 256 * 256 + v % 256 = v := by omega
  rw [h4]

lemma readU32_encode (v : Nat) (hv : v < 4294967296) (rest : List Nat) :
    readU32 (encodeU32 v ++ rest) = .ok (v, rest) := by
  simp only [encodeU32, List.cons_append, List.nil_append, readU32]
  have h1 : v / 16777216 < 256 := by omega
  have h2 : v / 16777216 % 256 = v / 16777216 := by omega
  rw [h2]
  have h4 : v / 16777216 * 16777216 + v / 65536 % 256 % 256 * 65536 +
      v / 256 % 256 % 256 * 256 + v % 256 % 256 = v := by omega
  rw [h4]

/-- The record scan on a well-formed record array returns the offset of the
first accepted record, in scan order, ignoring everything after it. -/
lemma findEncodingRecord_encode :
    ∀ (recs : List (Nat × Nat × Nat)) (tail : List Nat),
      (∀ p ∈ recs, p.1 < 65536 ∧ p.2.1 < 65536 ∧ p.2.2 < 4294967296) →
      findEncodingRecord (encodeRecords recs ++ tail) recs.length =
        .ok ((recs.find? fun p => acceptedEncoding p.1 p.2.1).map fun p => p.2.2) := by
  intro recs
  induction recs with
  | nil => intro tail _; simp [encodeRecords, findEncodingRecord]
  | cons p rs ih =>
    intro tail hb
    obtain ⟨hb1, hb2, hb3⟩ := hb p (by simp)
    obtain ⟨pid, eid, off⟩ := p
    simp only [encodeRecords, List.append_assoc, List.length_cons]
    simp only [findEncodingRecord]
    simp only [readU16_encode pid hb1, readU16_encode eid hb2, readU32_encode off hb3]
    by_cases hacc : acceptedEncoding pid eid
    · rw [if_pos hacc]
      simp [List.find?_cons, hacc]
    · rw [if_neg hacc]
      have hacc' : acceptedEncoding pid eid = false := by simpa using hacc
      rw [ih tail (fun q hq => hb q (by simp [hq]))]
      simp [List.find?_cons, hacc']

/-- Claim C8: `glyph_mapping_for_codepoint_ranges` fails with
`UnsupportedCmapVersion` exactly when the version word is nonzero; it scans
the encoding records in order and dispatches on the first accepted
`(platform_id, encoding_id)` pair — `(0, *)`, `(3, 1)` or `(3, 10)` —
ignoring all later records; it fails with `UnsupportedCmapEncoding` exactly
when no record matches; and with `UnsupportedCmapFormat` exactly when the
selected subtable's format word is neither 4 nor 12. -/
theorem claim8_subtable_selector :
    (∀ (table : List Nat) (ranges : List CodepointRange) (fuel : Nat),
      glyph_mapping_for_codepoint_ranges table ranges fuel =
          some (.error .unsupportedCmapVersion) ↔
        ∃ v r, readU16 table = .ok (v, r) ∧ v ≠ 0) ∧
    (∀ (recs : List (Nat × Nat × Nat)) (tail : List Nat),
      (∀ p ∈ recs, p.1 < 65536 ∧ p.2.1 < 65536 ∧ p.2.2 < 4294967296) →
      findEncodingRecord (encodeRecords recs ++ tail) recs.length =
        .ok ((recs.find? fun p => acceptedEncoding p.1 p.2.1).map fun p => p.2.2)) ∧
    (∀ (table : List Nat) (ranges : List CodepointRange) (fuel v nt : Nat)
        (r1 r2 : List Nat),
      readU16 table = .ok (v, r1) → v = 0 → readU16 r1 = .ok (nt, r2) →
      (glyph_mapping_for_codepoint_ranges table ranges fuel =
          some (.error .unsupportedCmapEncoding) ↔
        findEncodingRecord r2 nt = .ok none)) ∧
    (∀ (table : List Nat) (ranges : List CodepointRange) (fuel format : Nat)
        (body : List Nat),
      selectSubtable table = .ok (format, body) →
      (glyph_mapping_for_codepoint_ranges table ranges fuel =
          some (.error .unsupportedCmapFormat) ↔ format ≠ 4 ∧ format ≠ 12)) := by
  refine ⟨?_, findEncodingRecord_encode, ?_, ?_⟩
  · intro table ranges fuel
    constructor
    · intro h
      rw [top_error_iff_spans] at h
      unfold glyph_mapping_for_codepoint_ranges_with_spans at h
      split at h
      · rename_i e' heq
        cases Except.error.inj (Option.some.inj h)
        rcases selectSubtable_error_cases table _ heq with h1 | ⟨_, h1⟩ | ⟨h1, _⟩
        · simp at h1
        · exact h1
        · simp at h1
      · rename_i format body heq
        split at h
        · exact absurd (glyph_mapping_format4_error _ _ _ _ h) (by simp)
        · split at h
          · exact absurd (glyph_mapping_format12_error _ _ _ _ h) (by simp)
          · simp at h
    · rintro ⟨v, r, h1, h2⟩
      exact top_select_error _ _ _ _ (selectSubtable_version_of table v r h1 h2)
  · intro table ranges fuel v nt r1 r2 h1 h2 h3
    constructor
    · intro h
      rw [top_error_iff_spans] at h
      unfold glyph_mapping_for_codepoint_ranges_with_spans at h
      split at h
      · rename_i e' heq
        cases Except.error.inj (Option.some.inj h)
        rcases selectSubtable_error_cases table _ heq with h4 | ⟨h4, _⟩ | ⟨_, h4⟩
        · simp at h4
        · simp at h4
        · obtain ⟨v', r1', nt', r2', h5, h6, h7, h8⟩ := h4
          rw [h1] at h5
          have hr : r1 = r1' := (Prod.mk.inj (Except.ok.inj h5)).2
          rw [← hr] at h7
          rw [h3] at h7
          have hnt : nt = nt' := (Prod.mk.inj (Except.ok.inj h7)).1
          have hr2 : r2 = r2' := (Prod.mk.inj (Except.ok.inj h7)).2
          rw [← hnt, ← hr2] at h8
          exact h8
      · rename_i format body heq
        split at h
        · exact absurd (glyph_mapping_format4_error _ _ _ _ h) (by simp)
        · split at h
          · exact absurd (glyph_mapping_format12_error _ _ _ _ h) (by simp)
          · simp at h
    · intro h
      exact top_select_error _ _ _ _ (selectSubtable_encoding_of table v nt r1 r2 h1 h2 h3 h)
  · intro table ranges fuel format body hsel
    constructor
    · intro h
      rw [top_error_iff_spans] at h
      rw [with_spans_select_ok table ranges fuel format body hsel] at h
      split at h
      · exact absurd (glyph_mapping_format4_error _ _ _ _ h) (by simp)
      · split at h
        · exact absurd (glyph_mapping_format12_error _ _ _ _ h) (by simp)
        · rename_i hf4 hf12
          exact ⟨hf4, hf12⟩
    · rintro ⟨hf4, hf12⟩
      rw [top_error_iff_spans]
      rw [with_spans_select_ok table ranges fuel format body hsel]
      rw [if_neg hf4, if_neg hf12]

theorem claim8_subtable_selector_witness :
    (glyph_mapping_for_codepoint_ranges [0x00, 0x01] [] 1 =
      some (.error .unsupportedCmapVersion)) ∧
    (findEncodingRecord (encodeRecords [(1, 0, 5), (3, 1, 7), (0, 9, 11)] ++ [9, 9]) 3 =
      .ok (some 7)) ∧
    (glyph_mapping_for_codepoint_ranges [0x00, 0x00, 0x00, 0x00] [] 1 =
      some (.error .unsupportedCmapEncoding)) ∧
    (glyph_mapping_for_codepoint_ranges
        [0x00, 0x00, 0x00, 0x01, 0x00, 0x00, 0x00, 0x00, 0x00, 0x00, 0x00, 0x0C, 0x00, 0x05]
        [] 1 =
      some (.error .unsupportedCmapFormat)) := by
  refine ⟨?_, ?_, ?_, ?_⟩
  · exact (claim8_subtable_selector.1 [0x00, 0x01] [] 1).mpr ⟨1, [], rfl, by omega⟩
  · exact claim8_subtable_selector.2.1 [(1, 0, 5), (3, 1, 7), (0, 9, 11)] [9, 9] (by decide)
  · exact (claim8_subtable_selector.2.2.1 [0x00, 0x00, 0x00, 0x00] [] 1 0 0 [0x00, 0x00] []
      rfl rfl rfl).mpr rfl
  · exact (claim8_subtable_selector.2.2.2
      [0x00, 0x00, 0x00, 0x01, 0x00, 0x00, 0x00, 0x00, 0x00, 0x00, 0x00, 0x0C, 0x00, 0x05]
      [] 1 5 [] rfl).mpr ⟨by omega, by omega⟩

/-! ## Claim C10: empty queries still parse -/

/-- Claim C10: with an empty `codepoint_ranges` input the call still parses
and validates the version word, the encoding records, the subtable format
word (a format other than 4 or 12 is still rejected with
`unsupportedCmapFormat`), and (for Format 4) the whole subtable header with
the four array-locating jumps, returning the same error a non-empty query
would hit in that parsing, and `Ok` with an empty mapping when the parsing
succeeds. -/
theorem claim10_empty_query_still_parses :
    (∀ (table : List Nat) (ranges : List CodepointRange) (fuel : Nat) (e : FontError),
      selectSubtable table = .error e →
      glyph_mapping_for_codepoint_ranges table ranges fuel = some (.error e)) ∧
    (∀ (table : List Nat) (fuel format : Nat) (body : List Nat),
      selectSubtable table = .ok (format, body) → format ≠ 4 → format ≠ 12 →
      glyph_mapping_for_codepoint_ranges table [] fuel =
        some (.error .unsupportedCmapFormat)) ∧
    (∀ (table : List Nat) (ranges : List CodepointRange) (fuel : Nat) (body : List Nat)
        (e : FontError),
      selectSubtable table = .ok (4, body) → f4Parse body = .error e →
      glyph_mapping_for_codepoint_ranges table ranges fuel = some (.error e)) ∧
    (∀ (table : List Nat) (fuel : Nat) (body : List Nat) (t : Format4Arrays),
      selectSubtable table = .ok (4, body) → f4Parse body = .ok t →
      glyph_mapping_for_codepoint_ranges table [] fuel = some (.ok [])) ∧
    (∀ (table : List Nat) (ranges : List CodepointRange) (fuel : Nat) (body : List Nat)
        (e : FontError),
      selectSubtable table = .ok (12, body) → f12Parse body = .error e →
      glyph_mapping_for_codepoint_ranges table ranges fuel = some (.error e)) ∧
    (∀ (table : List Nat) (fuel ng : Nat) (body groups : List Nat),
      selectSubtable table = .ok (12, body) → f12Parse body = .ok (ng, groups) →
      glyph_mapping_for_codepoint_ranges table [] fuel = some (.ok [])) := by
  refine ⟨?_, ?_, ?_, ?_, ?_, ?_⟩
  · exact fun table ranges fuel e h => top_select_error table ranges fuel e h
  · intro table fuel format body hsel h4 h12
    rw [top_error_iff_spans]
    rw [with_spans_select_ok table [] fuel format body hsel]
    rw [if_neg h4, if_neg h12]
  · intro table ranges fuel body e hsel hparse
    rw [top_error_iff_spans]
    rw [with_spans_select_ok table ranges fuel 4 body hsel]
    rw [if_pos rfl]
    unfold glyph_mapping_for_codepoint_ranges_segment_mapping_format
    simp only [hparse]
  · intro table fuel body t hsel hparse
    unfold glyph_mapping_for_codepoint_ranges
    rw [with_spans_select_ok table [] fuel 4 body hsel]
    rw [if_pos rfl]
    unfold glyph_mapping_for_codepoint_ranges_segment_mapping_format
    simp only [hparse]
    rfl
  · intro table ranges fuel body e hsel hparse
    rw [top_error_iff_spans]
    rw [with_spans_select_ok table ranges fuel 12 body hsel]
    rw [if_neg (by omega), if_pos rfl]
    unfold glyph_mapping_for_codepoint_ranges_segmented_coverage
    simp only [hparse]
  · intro table fuel ng body groups hsel hparse
    unfold glyph_mapping_for_codepoint_ranges
    rw [with_spans_select_ok table [] fuel 12 body hsel]
    rw [if_neg (by omega), if_pos rfl]
    unfold glyph_mapping_for_codepoint_ranges_segmented_coverage
    simp only [hparse]
    rfl

/-- A cmap whose single record points at a Format 4 subtable with
`seg_count = 0`: the whole parse succeeds. -/
def tblEmptyOk : List Nat :=
  [0x00, 0x00, 0x00, 0x01,
   0x00, 0x00, 0x00, 0x03, 0x00, 0x00, 0x00, 0x0C,
   0x00, 0x04,
   0x00, 0x00, 0x00, 0x00, 0x00, 0x00, 0x00, 0x00, 0x00, 0x00, 0x00, 0x00,
   0x00, 0x00]

/-- A cmap whose single record points at a Format 12 subtable with
`num_groups = 0`. -/
def tblEmptyOk12 : List Nat :=
  [0x00, 0x00, 0x00, 0x01,
   0x00, 0x00, 0x00, 0x03, 0x00, 0x00, 0x00, 0x0C,
   0x00, 0x0C,
   0x00, 0x00,
   0x00, 0x00, 0x00, 0x00, 0x00, 0x00, 0x00, 0x00, 0x00, 0x00, 0x00, 0x00]

theorem claim10_empty_query_still_parses_witness :
    (glyph_mapping_for_codepoint_ranges [] [⟨1, 2⟩] 1 = some (.error .eof)) ∧
    (glyph_mapping_for_codepoint_ranges
        [0x00, 0x00, 0x00, 0x01, 0x00, 0x00, 0x00, 0x00, 0x00, 0x00, 0x00, 0x0C, 0x00, 0x06]
        [] 1 =
      some (.error .unsupportedCmapFormat)) ∧
    (glyph_mapping_for_codepoint_ranges
        [0x00, 0x00, 0x00, 0x01, 0x00, 0x00, 0x00, 0x00, 0x00, 0x00, 0x00, 0x0C, 0x00, 0x04]
        [⟨1, 1⟩] 1 =
      some (.error .eof)) ∧
    (glyph_mapping_for_codepoint_ranges tblEmptyOk [] 1 = some (.ok [])) ∧
    (glyph_mapping_for_codepoint_ranges
        [0x00, 0x00, 0x00, 0x01, 0x00, 0x00, 0x00, 0x00, 0x00, 0x00, 0x00, 0x0C, 0x00, 0x0C]
        [⟨1, 1⟩] 1 =
      some (.error .eof)) ∧
    (glyph_mapping_for_codepoint_ranges tblEmptyOk12 [] 1 = some (.ok [])) := by
  refine ⟨?_, ?_, ?_, ?_, ?_, ?_⟩
  · exact claim10_empty_query_still_parses.1 [] [⟨1, 2⟩] 1 .eof rfl
  · exact claim10_empty_query_still_parses.2.1
      [0x00, 0x00, 0x00, 0x01, 0x00, 0x00, 0x00, 0x00, 0x00, 0x00, 0x00, 0x0C, 0x00, 0x06]
      1 6 [] rfl (by omega) (by omega)
  · exact claim10_empty_query_still_parses.2.2.1
      [0x00, 0x00, 0x00, 0x01, 0x00, 0x00, 0x00, 0x00, 0x00, 0x00, 0x00, 0x0C, 0x00, 0x04]
      [⟨1, 1⟩] 1 [] .eof rfl rfl
  · exact claim10_empty_query_still_parses.2.2.2.1 tblEmptyOk 1
      [0x00, 0x00, 0x00, 0x00, 0x00, 0x00, 0x00, 0x00, 0x00, 0x00, 0x00, 0x00, 0x00, 0x00]
      ⟨0, [0x00, 0x00], [], [], []⟩ rfl rfl
  · exact claim10_empty_query_still_parses.2.2.2.2.1
      [0x00, 0x00, 0x00, 0x01, 0x00, 0x00, 0x00, 0x00, 0x00, 0x00, 0x00, 0x0C, 0x00, 0x0C]
      [⟨1, 1⟩] 1 [] .eof rfl rfl
  · exact claim10_empty_query_still_parses.2.2.2.2.2 tblEmptyOk12 1 0
      [0x00, 0x00, 0x00, 0x00, 0x00, 0x00, 0x00, 0x00, 0x00, 0x00, 0x00, 0x00, 0x00, 0x00]
      [] rfl rfl

/-! ## Claim C1: coverage of the emitted spans -/

lemma pushCons_ok (p : SpannedEntry) (r : LookupResult) (l : List SpannedEntry)
    (h : pushCons p r = some (.ok l)) : ∃ l', r = some (.ok l') ∧ l = p :: l' := by
  rcases r with _ | x
  · simp [pushCons] at h
  · rcases x with e2 | l2
    · simp [pushCons] at h
    · simp only [pushCons] at h
      exact ⟨l2, rfl, (Except.ok.inj (Option.some.inj h)).symm⟩

lemma pushAll_ok (r1 : Except FontError (List SpannedEntry)) (r2 : LookupResult)
    (l : List SpannedEntry) (h : pushAll r1 r2 = some (.ok l)) :
    ∃ l1 l2, r1 = .ok l1 ∧ r2 = some (.ok l2) ∧ l = l1 ++ l2 := by
  rcases r1 with e1 | l1
  · simp [pushAll] at h
  · rcases r2 with _ | x
    · simp [pushAll] at h
    · rcases x with e2 | l2
      · simp [pushAll] at h
      · simp only [pushAll] at h
        exact ⟨l1, l2, rfl, rfl, (Except.ok.inj (Option.some.inj h)).symm⟩

lemma coversB_eq_true (c : Nat) (p : SpannedEntry) :
    coversB c p = true ↔ p.2.start ≤ c ∧ c ≤ p.2.«end» := by
  simp [coversB]

/-- Entries whose spans all start at or after `m` cover nothing below `m`. -/
lemma countP_covers_zero (l : List SpannedEntry) (c m : Nat) (hc : c < m)
    (h : ∀ p ∈ l, m ≤ p.2.start) : l.countP (coversB c) = 0 := by
  rw [List.countP_eq_zero]
  intro p hp
  have hm := h p hp
  simp only [coversB, Bool.and_eq_true, decide_eq_true_eq, not_and]
  omega

/-- The indirect inner loop emits one singleton span per remaining code
offset: the spans are exactly the codepoints `sc+off, …, sc+off+n-1`, each
covered exactly once. -/
lemma f4IndirectLookups_count (irol : List Nat) (i iro : Nat) (δ : Int) (sc : Nat) :
    ∀ (n off : Nat) (l : List SpannedEntry),
      f4IndirectLookups irol i iro δ sc off n = .ok l →
      (∀ p ∈ l, sc + off ≤ p.2.start ∧ p.2.start < sc + off + n ∧ p.2.«end» = p.2.start) ∧
      (∀ c, l.countP (coversB c) = if sc + off ≤ c ∧ c < sc + off + n then 1 else 0) := by
  intro n
  induction n with
  | zero =>
    intro off l h
    simp only [f4IndirectLookups] at h
    cases Except.ok.inj h
    constructor
    · intro p hp; simp at hp
    · intro c
      rw [List.countP_nil, if_neg (by omega)]
  | succ m ih =>
    intro off l h
    simp only [f4IndirectLookups] at h
    split at h
    · simp at h
    · rename_i g hread
      unfold consEntry at h
      split at h
      · simp at h
      · rename_i rest heq
        cases Except.ok.inj h
        obtain ⟨ihmem, ihcount⟩ := ih (off + 1) rest heq
        constructor
        · intro p hp
          rcases List.mem_cons.mp hp with hp | hp
          · subst hp
            dsimp only
            exact ⟨by omega, by omega, rfl⟩
          · have hq := ihmem p hp
            exact ⟨by omega, by omega, hq.2.2⟩
        · intro c
          rw [List.countP_cons, ihcount c]
          have hhead : coversB c
              ((if g = 0 then (⟨sc + off, ⟨0, 0⟩⟩ : MappedGlyphRange)
                else ⟨sc + off, ⟨wrapAddI16 g δ, wrapAddI16 g δ⟩⟩),
               (⟨sc + off, sc + off⟩ : CodepointRange)) = decide (c = sc + off) := by
            simp only [coversB]
            dsimp only
            rw [← Bool.decide_and, decide_eq_decide]
            omega
          rw [hhead]
          simp only [decide_eq_true_eq]
          split_ifs <;> omega

/-- Capture: if the segment found at `B` clips backwards (`e`'s low 16 bits
are below `B`), every loop state at or below `B` stays at or below `B`
forever, so from such a state the per-range loop never returns `Ok`. -/
lemma f4Lookups_capture (t : Format4Arrays) (e B i : Nat)
    (hB : B ≤ 65535) (hBe : B ≤ e) (heu : e % 65536 < B)
    (hfound : findSegment t.end_codes t.start_codes B (t.seg_count + 1) 0 t.seg_count =
      .ok (some i)) :
    ∀ (fuel s : Nat), s ≤ B → ∀ l, f4Lookups t e s fuel ≠ some (.ok l) := by
  intro fuel
  induction fuel with
  | zero => intro s _ l h; simp [f4Lookups] at h
  | succ n ih =>
    intro s hs l h
    simp only [f4Lookups] at h
    rw [if_neg (by omega), if_neg (by omega)] at h
    rw [Nat.mod_eq_of_lt (by omega : s < 65536)] at h
    split at h
    · simp at h
    · -- no segment found at s, so s ≠ B; advance by one
      rename_i heq
      obtain ⟨l', hrec, _⟩ := pushCons_ok _ _ _ h
      have hne : s ≠ B := by
        intro hsB
        rw [hsB, hfound] at heq
        simp at heq
      rw [Nat.mod_eq_of_lt (by omega : s + 1 < 4294967296)] at hrec
      exact ih (s + 1) (by omega) l' hrec
    · -- a segment was found at s: it clips to at most e % 65536 < B
      rename_i j heq
      split at h
      · simp at h
      · rename_i scv hscv
        split at h
        · simp at h
        · rename_i ecv hecv
          split at h
          · simp at h
          · rename_i irov hirov
            split at h
            · simp at h
            · rename_i dv hdv
              have hnext : (min (e % 65536) ecv + 1) % 65536 = min (e % 65536) ecv + 1 := by
                omega
              rw [hnext] at h
              split at h
              · obtain ⟨l', hrec, _⟩ := pushCons_ok _ _ _ h
                exact ih _ (by omega) l' hrec
              · obtain ⟨l1, l2, _, hrec, _⟩ := pushAll_ok _ _ _ h
                exact ih _ (by omega) l2 hrec

/-- One loop iteration that covers `[s, m]` with a single pushed entry,
followed by a correctly-covering remainder from `m + 1`. -/
lemma cover_step (s e m : Nat) (mgr : MappedGlyphRange) (l' : List SpannedEntry)
    (hm : s ≤ m)
    (hmem : ∀ p ∈ l', m + 1 ≤ p.2.start)
    (hcount : ∀ c, m + 1 ≤ c → c ≤ e → l'.countP (coversB c) = 1) :
    (∀ p ∈ ((mgr, (⟨s, m⟩ : CodepointRange)) :: l'), s ≤ p.2.start) ∧
    (∀ c, s ≤ c → c ≤ e →
      ((mgr, (⟨s, m⟩ : CodepointRange)) :: l').countP (coversB c) = 1) := by
  constructor
  · intro p hp
    rcases List.mem_cons.mp hp with hp | hp
    · subst hp; dsimp only; omega
    · have := hmem p hp; omega
  · intro c h1 h2
    rw [List.countP_cons]
    have hhead : coversB c (mgr, (⟨s, m⟩ : CodepointRange)) = decide (s ≤ c ∧ c ≤ m) := by
      simp only [coversB]
      dsimp only
      rw [← Bool.decide_and]
    rw [hhead]
    simp only [decide_eq_true_eq]
    by_cases hc : c ≤ m
    · rw [if_pos ⟨h1, hc⟩, countP_covers_zero l' c (m + 1) (by omega) hmem]
    · rw [if_neg (by omega : ¬(s ≤ c ∧ c ≤ m)), hcount c (by omega) h2]

/-- One loop iteration that covers `[s, m]` with a batch of singleton pushes,
followed by a correctly-covering remainder from `m + 1`. -/
lemma cover_step_append (s e m : Nat) (l1 l2 : List SpannedEntry)
    (hm : s ≤ m)
    (hmem1 : ∀ p ∈ l1, s ≤ p.2.start)
    (hcount1 : ∀ c, l1.countP (coversB c) = if s ≤ c ∧ c < m + 1 then 1 else 0)
    (hmem2 : ∀ p ∈ l2, m + 1 ≤ p.2.start)
    (hcount2 : ∀ c, m + 1 ≤ c → c ≤ e → l2.countP (coversB c) = 1) :
    (∀ p ∈ l1 ++ l2, s ≤ p.2.start) ∧
    (∀ c, s ≤ c → c ≤ e → (l1 ++ l2).countP (coversB c) = 1) := by
  constructor
  · intro p hp
    rcases List.mem_append.mp hp with hp | hp
    · exact hmem1 p hp
    · have := hmem2 p hp; omega
  · intro c h1 h2
    rw [List.countP_append, hcount1 c]
    by_cases hc : c ≤ m
    · rw [if_pos ⟨h1, by omega⟩, countP_covers_zero l2 c (m + 1) (by omega) hmem2]
    · rw [if_neg (by omega : ¬(s ≤ c ∧ c < m + 1)), hcount2 c (by omega) h2]

/-- Main Format 4 coverage lemma: on a successful per-range run whose end is
not `0xFFFF` modulo `2^16`, the emitted spans start at or after the cursor
and cover every queried codepoint exactly once. -/
lemma f4Lookups_coverage (t : Format4Arrays) (e : Nat) (he : e % 65536 ≠ 65535)
    (he2 : e < 4294967296) :
    ∀ (fuel s : Nat) (l : List SpannedEntry), s < 4294967296 →
      f4Lookups t e s fuel = some (.ok l) →
      (∀ p ∈ l, s ≤ p.2.start) ∧
      (∀ c, s ≤ c → c ≤ e → l.countP (coversB c) = 1) := by
  intro fuel
  induction fuel with
  | zero => intro s l _ h; simp [f4Lookups] at h
  | succ n ih =>
    intro s l hs h
    simp only [f4Lookups] at h
    split at h
    · rename_i hlt
      cases Except.ok.inj (Option.some.inj h)
      refine ⟨?_, ?_⟩
      · intro p hp; simp at hp
      · intro c h1 h2; omega
    · rename_i hles
      split at h
      · -- above the BMP: missing singleton, u32 increment
        rename_i hgt
        obtain ⟨l', hrec, hl⟩ := pushCons_ok _ _ _ h
        subst hl
        have hne : s ≠ 4294967295 := by
          intro hx
          apply he
          omega
        have hmod : (s + 1) % 4294967296 = s + 1 := by omega
        rw [hmod] at hrec
        obtain ⟨ihmem, ihcount⟩ := ih (s + 1) l' (by omega) hrec
        exact cover_step s e s _ l' (le_refl s) ihmem ihcount
      · rename_i hbmp
        rw [Nat.mod_eq_of_lt (show s < 65536 by omega)] at h
        split at h
        · simp at h
        · -- no segment: missing singleton, u32 increment
          obtain ⟨l', hrec, hl⟩ := pushCons_ok _ _ _ h
          subst hl
          have hmod : (s + 1) % 4294967296 = s + 1 := by omega
          rw [hmod] at hrec
          obtain ⟨ihmem, ihcount⟩ := ih (s + 1) l' (by omega) hrec
          exact cover_step s e s _ l' (le_refl s) ihmem ihcount
        · -- segment found
          rename_i j heq
          obtain ⟨ecv', scv', hec', hsc', hsle, hlee⟩ :=
            findSegment_found t.end_codes t.start_codes s (t.seg_count + 1) 0 t.seg_count j heq
          split at h
          · simp at h
          · rename_i scv hscv
            split at h
            · simp at h
            · rename_i ecv hecv
              split at h
              · simp at h
              · rename_i irov hirov
                split at h
                · simp at h
                · rename_i dv hdv
                  have hscq : scv' = scv := by
                    rw [hsc'] at hscv
                    exact Except.ok.inj hscv
                  have hecq : ecv' = ecv := by
                    rw [hec'] at hecv
                    exact Except.ok.inj hecv
                  rw [hscq] at hsle
                  rw [hecq] at hlee
                  by_cases hfwd : min (e % 65536) ecv < s
                  · -- the clip went backwards: the loop can never finish
                    exfalso
                    have heu : e % 65536 < s := by omega
                    have hnext : (min (e % 65536) ecv + 1) % 65536 =
                        min (e % 65536) ecv + 1 := by omega
                    rw [hnext] at h
                    split at h
                    · obtain ⟨l', hrec, _⟩ := pushCons_ok _ _ _ h
                      exact f4Lookups_capture t e s j (by omega) (by omega) heu heq
                        n _ (by omega) l' hrec
                    · obtain ⟨l1, l2, _, hrec, _⟩ := pushAll_ok _ _ _ h
                      exact f4Lookups_capture t e s j (by omega) (by omega) heu heq
                        n _ (by omega) l2 hrec
                  · -- forward: the entry (or batch) covers [s, clip]
                    have hclip65 : min (e % 65536) ecv < 65535 := by omega
                    have hnext : (min (e % 65536) ecv + 1) % 65536 =
                        min (e % 65536) ecv + 1 := by omega
                    rw [hnext] at h
                    split at h
                    · -- direct-mapped
                      obtain ⟨l', hrec, hl⟩ := pushCons_ok _ _ _ h
                      subst hl
                      obtain ⟨ihmem, ihcount⟩ := ih _ l' (by omega) hrec
                      exact cover_step s e (min (e % 65536) ecv) _ l' (by omega) ihmem ihcount
                    · -- indirect
                      obtain ⟨l1, l2, hl1, hrec, hl⟩ := pushAll_ok _ _ _ h
                      subst hl
                      obtain ⟨ihmem, ihcount⟩ := ih _ l2 (by omega) hrec
                      have hoff : (s + 65536 - scv) % 65536 = s - scv := by omega
                      rw [hoff] at hl1
                      have hcnt : ((min (e % 65536) ecv + 65536 - scv) % 65536 + 1) % 65536 -
                          (s - scv) = min (e % 65536) ecv + 1 - s := by omega
                      rw [hcnt] at hl1
                      obtain ⟨imem, icount⟩ := f4IndirectLookups_count t.id_range_offsets j irov
                        dv scv (min (e % 65536) ecv + 1 - s) (s - scv) l1 hl1
                      refine cover_step_append s e (min (e % 65536) ecv) l1 l2 (by omega)
                        ?_ ?_ ihmem ihcount
                      · intro p hp
                        have := (imem p hp).1
                        omega
                      · intro c
                        rw [icount c]
                        split_ifs <;> omega

/-- A Format 12 query whose range end is the u32 maximum can never finish:
`start` stays a u32 and the loop guard never fails. -/
lemma f12Lookups_max_diverges (groups : List Nat) (ng : Nat) :
    ∀ (fuel s : Nat), s < 4294967296 → ∀ l,
      f12Lookups groups ng 4294967295 s fuel ≠ some (.ok l) := by
  intro fuel
  induction fuel with
  | zero => intro s _ l h; simp [f12Lookups] at h
  | succ n ih =>
    intro s hs l h
    simp only [f12Lookups] at h
    rw [if_neg (by omega)] at h
    split at h
    · simp at h
    · simp at h
    · obtain ⟨l', hrec, _⟩ := pushCons_ok _ _ _ h
      exact ih _ (Nat.mod_lt _ (by omega)) l' hrec
    · obtain ⟨l', hrec, _⟩ := pushCons_ok _ _ _ h
      exact ih _ (Nat.mod_lt _ (by omega)) l' hrec

/-- Main Format 12 coverage lemma: on any successful per-range run (u32
inputs), the emitted spans start at or after the cursor and cover every
queried codepoint exactly once. -/
lemma f12Lookups_coverage (groups : List Nat) (ng e : Nat) (he2 : e < 4294967296) :
    ∀ (fuel s : Nat) (l : List SpannedEntry), s < 4294967296 →
      f12Lookups groups ng e s fuel = some (.ok l) →
      (∀ p ∈ l, s ≤ p.2.start) ∧
      (∀ c, s ≤ c → c ≤ e → l.countP (coversB c) = 1) := by
  intro fuel
  induction fuel with
  | zero => intro s l _ h; simp [f12Lookups] at h
  | succ n ih =>
    intro s l hs h
    by_cases hemax : e = 4294967295
    · exact absurd h (hemax ▸ f12Lookups_max_diverges groups ng (n + 1) s hs l)
    · simp only [f12Lookups] at h
      split at h
      · rename_i hlt
        cases Except.ok.inj (Option.some.inj h)
        refine ⟨?_, ?_⟩
        · intro p hp; simp at hp
        · intro c h1 h2; omega
      · rename_i hles
        split at h
        · simp at h
        · simp at h
        · -- no group: missing singleton, u32 increment
          obtain ⟨l', hrec, hl⟩ := pushCons_ok _ _ _ h
          subst hl
          have hmod : (s + 1) % 4294967296 = s + 1 := by omega
          rw [hmod] at hrec
          obtain ⟨ihmem, ihcount⟩ := ih (s + 1) l' (by omega) hrec
          exact cover_step s e s _ l' (le_refl s) ihmem ihcount
        · -- group found: its entry covers [s, min e end_char_code]
          rename_i seg heq
          obtain ⟨⟨mid, hrd⟩, hlo, hhi⟩ := findGroup_found groups s (n + 1) 0 ng seg heq
          have hclip : s ≤ min e seg.end_char_code := by omega
          have hmod : (min e seg.end_char_code + 1) % 4294967296 =
              min e seg.end_char_code + 1 := by omega
          rw [hmod] at h
          obtain ⟨l', hrec, hl⟩ := pushCons_ok _ _ _ h
          subst hl
          obtain ⟨ihmem, ihcount⟩ := ih _ l' (by omega) hrec
          exact cover_step s e (min e seg.end_char_code) _ l' hclip ihmem ihcount

/-- Count the entries whose span covers `c` in a successful lookup result. -/
def coverCount (c : Nat) : LookupResult → Option Nat
  | some (.ok l) => some (l.countP (coversB c))
  | _ => none

/-- A full cmap table (version 0, one Unicode record, Format 4, five
segments, all direct-mapped with `id_delta = 0`):
`end_code   = [0x0000, 0xFFFE, 0x0100, 0xFFFF, 0xFFFE]`,
`start_code = [0x0001, 0x0050, 0x0101, 0x0200, 0x9000]`.
The segment `[0x200, 0xFFFF]` is found by the binary search only for
codepoints `0x200..0x8FFF`, while `[0x50, 0xFFFE]` is found for
`0x50..0x100`. -/
def tblEscape : List Nat :=
  [0x00, 0x00, 0x00, 0x01,
   0x00, 0x00, 0x00, 0x03, 0x00, 0x00, 0x00, 0x0C,
   0x00, 0x04,
   0x00, 0x00, 0x00, 0x00, 0x00, 0x0A, 0x00, 0x00, 0x00, 0x00, 0x00, 0x00,
   0x00, 0x00, 0xFF, 0xFE, 0x01, 0x00, 0xFF, 0xFF, 0xFF, 0xFE,
   0x00, 0x00,
   0x00, 0x01, 0x00, 0x50, 0x01, 0x01, 0x02, 0x00, 0x90, 0x00,
   0x00, 0x00, 0x00, 0x00, 0x00, 0x00, 0x00, 0x00, 0x00, 0x00,
   0x00, 0x00, 0x00, 0x00, 0x00, 0x00, 0x00, 0x00, 0x00, 0x00]

set_option maxRecDepth 100000 in
/-- Claim C1, counterexample: the Format 4 query `[0x200, 0xFFFF]` on
`tblEscape` *succeeds* and yet covers codepoint `0x200` twice.  The segment
found at `0x200` has `end_code = 0xFFFF`, so the u16 cursor increment wraps
`start` to `0`; the loop then re-consumes `0x0 .. 0xFFFF` (finding the
overlapping segment `[0x50, 0xFFFE]` at `0x50`, whose clip ends at `0xFFFE`),
reaches `0xFFFF` where no segment is found by the search, steps to `0x10000`
in u32 and exits with `Ok` — having emitted two entries whose spans both
contain `0x200`. -/
theorem claim1_counterexample :
    coverCount 0x200
      (glyph_mapping_for_codepoint_ranges_with_spans tblEscape [⟨0x200, 0xFFFF⟩] 100) =
      some 2 := by
  rfl

/-- Claim C1, amended: within a single input `CodepointRange [s, e]` the
entries emitted for that range cover every codepoint `c ∈ [s, e]` exactly
once — unconditionally for the Format 12 resolver, and for the Format 4
resolver under the additional restriction `e % 2^16 ≠ 0xFFFF` (without it the
u16 cursor wrap can duplicate coverage, see the counterexample). -/
theorem claim1_amended_exactly_once :
    (∀ (t : Format4Arrays) (e s fuel : Nat) (l : List SpannedEntry) (c : Nat),
      e % 65536 ≠ 65535 → e < 4294967296 → s < 4294967296 →
      f4Lookups t e s fuel = some (.ok l) → s ≤ c → c ≤ e →
      l.countP (coversB c) = 1) ∧
    (∀ (groups : List Nat) (ng e s fuel : Nat) (l : List SpannedEntry) (c : Nat),
      e < 4294967296 → s < 4294967296 →
      f12Lookups groups ng e s fuel = some (.ok l) → s ≤ c → c ≤ e →
      l.countP (coversB c) = 1) := by
  constructor
  · intro t e s fuel l c he he2 hs h h1 h2
    exact (f4Lookups_coverage t e he he2 fuel s l hs h).2 c h1 h2
  · intro groups ng e s fuel l c he2 hs h h1 h2
    exact (f12Lookups_coverage groups ng e he2 fuel s l hs h).2 c h1 h2

theorem claim1_amended_exactly_once_witness :
    (f4Lookups tblAZdelta 0x5A 0x41 2 =
      some (.ok [(⟨0x41, ⟨0x21, 0x3A⟩⟩, ⟨0x41, 0x5A⟩)])) ∧
    ([((⟨0x41, ⟨0x21, 0x3A⟩⟩ : MappedGlyphRange),
       (⟨0x41, 0x5A⟩ : CodepointRange))].countP (coversB 0x50) = 1) ∧
    (f12Lookups grp12 1 0x1F620 0x1F610 2 =
      some (.ok [(⟨0x1F610, ⟨1016, 1032⟩⟩, ⟨0x1F610, 0x1F620⟩)])) ∧
    ([((⟨0x1F610, ⟨1016, 1032⟩⟩ : MappedGlyphRange),
       (⟨0x1F610, 0x1F620⟩ : CodepointRange))].countP (coversB 0x1F615) = 1) := by
  refine ⟨rfl, ?_, rfl, ?_⟩
  · exact claim1_amended_exactly_once.1 tblAZdelta 0x5A 0x41 2 _ 0x50 (by decide) (by decide)
      (by decide) rfl (by decide) (by decide)
  · exact claim1_amended_exactly_once.2 grp12 1 0x1F620 0x1F610 2 _ 0x1F615 (by decide)
      (by decide) rfl (by decide) (by decide)

end Cmap
